import Mathlib

/-!
# Verification of the mpy-test-ext HIL test orchestration scripts

Shallow embedding of the Python sources `uhubctl.py`, `run_test_plan.py`
and (for device records) `devs.py`, together with theorems settling the
specification claims about them.

Conventions:
* Python strings are Lean `String`s; the character-level helpers work on
  `List Char` (`String.data`).
* Python `int` is `Int`; parsed port numbers are the non-negative values
  produced by `int(...)` on a digit string.
* Python `None` becomes `Option.none`; Python truthiness of the values
  that the source tests (`str`, `int`, `None`, objects) is modelled by
  explicit `pyTruthy*` functions.
* Stateful methods become explicit state-passing functions; subprocess
  results are explicit records.
-/

/-! ## Python string primitives -/

/-- Python `str.isspace` for the ASCII whitespace characters that can occur
in the tool output handled here (space, tab, newline, carriage return,
vertical tab, form feed). -/
def pyIsSpace (c : Char) : Bool :=
  c == ' ' || c == '\t' || c == '\n' || c == '\r' || c == '\x0b' || c == '\x0c'

/-- Python `str.strip()` on the character list: drop whitespace on both ends. -/
def pyStripChars (s : List Char) : List Char :=
  ((s.dropWhile pyIsSpace).reverse.dropWhile pyIsSpace).reverse

/-- Python `str.strip()`. -/
def pyStrip (s : String) : String :=
  String.mk (pyStripChars s.data)

/-- Python `str.split('\n')`: split on every newline, keeping empty pieces. -/
def splitOnNl : List Char → List (List Char)
  | [] => [[]]
  | c :: t =>
    let r := splitOnNl t
    if c == '\n' then [] :: r
    else
      match r with
      | h :: t2 => (c :: h) :: t2
      | [] => [[c]]

/-- The lines of a Python string as produced by `s.split('\n')`. -/
def pyLines (s : String) : List String :=
  (splitOnNl s.data).map String.mk

/-- Is `pat` a contiguous infix of `s` (Python's `pat in s`)? -/
def charsContain (s pat : List Char) : Bool :=
  match s with
  | [] => pat.isEmpty
  | _ :: t => pat.isPrefixOf s || charsContain t pat

/-- Python substring containment `pat in s`. -/
def strContains (s pat : String) : Bool :=
  charsContain s.data pat.data

/-- Python `str.startswith`. -/
def strStartsWith (s pat : String) : Bool :=
  pat.data.isPrefixOf s.data

/-- Numeric value of a digit string, as computed by Python `int(...)`
on a `\d+` regex group. -/
def digitsToNat (ds : List Char) : Nat :=
  ds.foldl (fun a c => a * 10 + (c.toNat - '0'.toNat)) 0

/-! ## uhubctl.py — line classification

`Uhubctl.__line_search_update_hub` uses `re.search(r'hub (\S+)', line)` under
a `startswith("Current status for hub")` guard, and
`Uhubctl.__line_search_port` uses `re.search(r'Port (\d+):', line)` under a
`startswith("Port")` guard.  Both regex searches are embedded as leftmost
-match scans over the character list. -/

/-- Does the regex `hub (\S+)` match at this exact position?  If so, return
the captured group: the maximal run of non-whitespace characters after
the literal `"hub "`. -/
def hubTokenAt : List Char → Option String
  | 'h' :: 'u' :: 'b' :: ' ' :: d :: rest =>
    if pyIsSpace d then none
    else some (String.mk (d :: rest.takeWhile (fun c => !pyIsSpace c)))
  | _ => none

/-- Leftmost match of `re.search(r'hub (\S+)', ·)`, returning the group. -/
def reSearchHub : List Char → Option String
  | [] => none
  | c :: t =>
    match hubTokenAt (c :: t) with
    | some h => some h
    | none => reSearchHub t

/-- Does the regex `Port (\d+):` match at this exact position?  A match
requires the literal `"Port "`, a non-empty maximal digit run, and an
immediately following `':'` (backtracking inside the digit run cannot
produce a colon earlier). -/
def portNumAt : List Char → Option Int
  | 'P' :: 'o' :: 'r' :: 't' :: ' ' :: rest =>
    let ds := rest.takeWhile Char.isDigit
    if ds.isEmpty then none
    else
      match rest.dropWhile Char.isDigit with
      | ':' :: _ => some (digitsToNat ds : Int)
      | _ => none
  | _ => none

/-- Leftmost match of `re.search(r'Port (\d+):', ·)`, returning `int(group)`. -/
def reSearchPort : List Char → Option Int
  | [] => none
  | c :: t =>
    match portNumAt (c :: t) with
    | some n => some n
    | none => reSearchPort t

/-- `Uhubctl.__line_search_update_hub`: on a hub-header line, replace the
current hub with the token following `"hub "`; otherwise keep it. -/
def line_search_update_hub (output_line : String) (current_hub : Option String) :
    Option String :=
  if strStartsWith output_line "Current status for hub" then
    match reSearchHub output_line.data with
    | some h => some h
    | none => current_hub
  else current_hub

/-- `Uhubctl.__line_search_port`: the port number of a `"Port N:"` line. -/
def line_search_port (output_line : String) : Option Int :=
  if strStartsWith output_line "Port" then reSearchPort output_line.data
  else none

/-! ## uhubctl.py — output scans -/

/-- Python truthiness of an optional string (`None` and `""` are falsy). -/
def pyTruthyStr : Option String → Bool
  | none => false
  | some s => s != ""

/-- Python truthiness of an optional int (`None` and `0` are falsy). -/
def pyTruthyInt : Option Int → Bool
  | none => false
  | some n => n != 0

/-- Loop body of `Uhubctl.__output_search_port_status`: scan the lines,
maintaining the current hub, and classify the first line whose hub/port
pair equals the query. -/
def statusScan (hub : String) (port : Int) :
    List String → Option String → String
  | [], _ => "unknown"
  | l :: rest, current_hub =>
    let line := pyStrip l
    let ch := line_search_update_hub line current_hub
    let cp := line_search_port line
    if some hub = ch ∧ some port = cp then
      if strContains line " off" then "off"
      else if strContains line " power" ∧ strContains line "enable connect" then
        "on connected"
      else if strContains line " power" then "on"
      else "unknown"
    else statusScan hub port rest ch

/-- `Uhubctl.__output_search_port_status` applied to a captured output. -/
def output_search_port_status (last_cmd_output : String) (hub : String)
    (port : Int) : String :=
  statusScan hub port (pyLines (pyStrip last_cmd_output)) none

/-- Loop body of `Uhubctl.__output_search_hub_port_by_desc`: return the
first line that has a truthy current hub, a truthy port number and
contains the description substring. -/
def descScan (desc_match : String) :
    List String → Option String → Option String × Option Int
  | [], _ => (none, none)
  | l :: rest, current_hub =>
    let line := pyStrip l
    let ch := line_search_update_hub line current_hub
    let cp := line_search_port line
    if pyTruthyStr ch ∧ pyTruthyInt cp ∧ strContains line desc_match then (ch, cp)
    else descScan desc_match rest ch

/-- `Uhubctl.__output_search_hub_port_by_desc` applied to a captured output. -/
def output_search_hub_port_by_desc (last_cmd_output : String)
    (desc_match : String) : Option String × Option Int :=
  descScan desc_match (pyLines (pyStrip last_cmd_output)) none

/-! ## uhubctl.py — subprocess boundary (`Uhubctl.__run_cmd`) -/

/-- Result of a `subprocess.run` invocation, decoded. -/
structure ProcResult where
  returncode : Int
  stdout : String
  stderr : String

/-- `Uhubctl.__are_devices_detected`. -/
def are_devices_detected (uhubctl_stderr : String) : Bool :=
  if strContains uhubctl_stderr "No compatible devices detected!" then false
  else true

/-- Observable effect of `Uhubctl.__run_cmd`: the value left in
`self.last_cmd_output` and whether the error path printed a message. -/
structure RunCmdEffect where
  last_cmd_output : String
  logged_error : Bool
deriving DecidableEq, Repr

/-- `Uhubctl.__run_cmd`.  Note the control flow of the source: in the
non-zero branch, only the "no compatible devices" case returns early; the
generic error case prints, assigns `""`, and then falls through to the
final assignment `self.last_cmd_output = uhub_proc.stdout.decode('utf-8')`. -/
def runUhubCmd (proc : ProcResult) : RunCmdEffect :=
  if proc.returncode ≠ 0 then
    if !are_devices_detected proc.stderr then
      { last_cmd_output := "", logged_error := false }
    else
      { last_cmd_output := proc.stdout, logged_error := true }
  else
    { last_cmd_output := proc.stdout, logged_error := false }

/-! ## Specification-side formulations of the two output scans

The spec describes `getStatus` as "find the first line matching the queried
hub/port pair, then classify it", and the description search as "find the
first qualifying port line, then return its hub and port".  The following
definitions follow those words; the claim theorems relate them to the
fused loops embedded from the source. -/

/-- Classification rules of the spec, applied to a single (stripped) line:
`" off"` gives `off`; `" power"` with `"enable connect"` gives
`on_connected` (string `"on connected"` in the source); `" power"` alone
gives `on`; anything else is `unknown`. -/
def classifyStatusLine (line : String) : String :=
  if strContains line " off" then "off"
  else if strContains line " power" ∧ strContains line "enable connect" then
    "on connected"
  else if strContains line " power" then "on"
  else "unknown"

/-- The first (stripped) line whose hub/port pair — current hub after
processing the line, port parsed from the line — equals the query. -/
def findStatusLine (hub : String) (port : Int) :
    List String → Option String → Option String
  | [], _ => none
  | l :: rest, current_hub =>
    let line := pyStrip l
    let ch := line_search_update_hub line current_hub
    let cp := line_search_port line
    if some hub = ch ∧ some port = cp then some line
    else findStatusLine hub port rest ch

/-- Spec formulation of status lookup: classify the first matching line,
`unknown` when there is none. -/
def getStatusOfFirstMatch (last_cmd_output : String) (hub : String)
    (port : Int) : String :=
  match findStatusLine hub port (pyLines (pyStrip last_cmd_output)) none with
  | none => "unknown"
  | some line => classifyStatusLine line

/-- Spec formulation of the description search (with the Python
truthiness conditions spelled out): the first line inside a hub section
(non-empty hub token) that parses to a non-zero port number and contains
the search substring yields that hub and port. -/
def findDescHubPort (desc_match : String) :
    List String → Option String → Option String × Option Int
  | [], _ => (none, none)
  | l :: rest, current_hub =>
    let line := pyStrip l
    let ch := line_search_update_hub line current_hub
    match ch, line_search_port line with
    | some h, some p =>
      if h ≠ "" ∧ p ≠ 0 ∧ strContains line desc_match then (some h, some p)
      else findDescHubPort desc_match rest ch
    | _, _ => findDescHubPort desc_match rest ch

/-- Sample output block of spec section 8 (docstring of
`Uhubctl.__output_search_port_status`, abridged as in the spec). -/
def sampleStatusOutput : String :=
  "Current status for hub 2-1 [...]\n  Port 3: 0263 power 5gbps U3 enable connect [...]\nCurrent status for hub 1-1.3 [...]\n  Port 1: 0100 off\n  Port 3: 0103 power enable connect [...]"

/-- Sample output block of the docstring of
`Uhubctl.__output_search_hub_port_by_desc` (spec section 4.1). -/
def sampleDescOutput : String :=
  "Current status for hub 2-1 [0bda:0411 Generic USB3.2 Hub, USB 3.20, 4 ports, ppps]\n  Port 2: 02a0 power 5gbps Rx.Detect\nCurrent status for hub 1-1 [0bda:5411 Generic USB2.1 Hub, USB 2.10, 4 ports, ppps]\n  Port 2: 0103 power enable connect [04b4:f155 Cypress Semiconductor KitProg3 CMSIS-DAP 1106035A012D2400]"

/-- The fused status scan equals "find first matching line, then classify". -/
theorem statusScan_eq_firstMatch (hub : String) (port : Int) :
    ∀ (lines : List String) (ch : Option String),
      statusScan hub port lines ch =
        (match findStatusLine hub port lines ch with
          | none => "unknown"
          | some line => classifyStatusLine line)
  | [], _ => rfl
  | l :: rest, ch => by
    rw [statusScan, findStatusLine]
    by_cases h :
        some hub = line_search_update_hub (pyStrip l) ch ∧
          some port = line_search_port (pyStrip l)
    · simp only [if_pos h, classifyStatusLine]
    · simp only [if_neg h]
      exact statusScan_eq_firstMatch hub port rest _

/-- The fused description scan equals the spec-side search with the
truthiness conditions spelled out. -/
theorem descScan_eq_findDesc (desc : String) :
    ∀ (lines : List String) (ch : Option String),
      descScan desc lines ch = findDescHubPort desc lines ch
  | [], _ => rfl
  | l :: rest, ch => by
    rw [descScan, findDescHubPort]
    rcases hch : line_search_update_hub (pyStrip l) ch with _ | h <;>
      rcases hcp : line_search_port (pyStrip l) with _ | p
    · simpa [hch, hcp, pyTruthyStr, pyTruthyInt] using
        descScan_eq_findDesc desc rest _
    · simpa [hch, hcp, pyTruthyStr, pyTruthyInt] using
        descScan_eq_findDesc desc rest _
    · simpa [hch, hcp, pyTruthyStr, pyTruthyInt] using
        descScan_eq_findDesc desc rest _
    · by_cases hq : h ≠ "" ∧ p ≠ 0 ∧ strContains (pyStrip l) desc
      · simp [hch, hcp, pyTruthyStr, pyTruthyInt, hq, hq.1, hq.2.1, hq.2.2]
      · push_neg at hq
        by_cases h1 : h = ""
        · simpa [hch, hcp, pyTruthyStr, pyTruthyInt, h1] using
            descScan_eq_findDesc desc rest _
        · by_cases h2 : p = 0
          · simpa [hch, hcp, pyTruthyStr, pyTruthyInt, h1, h2] using
              descScan_eq_findDesc desc rest _
          · have h3 : ¬ strContains (pyStrip l) desc = true := by
              simpa [h1, h2] using hq
            simpa [hch, hcp, pyTruthyStr, pyTruthyInt, h1, h2, h3] using
              descScan_eq_findDesc desc rest _

/-- C1.  `getStatus` classifies the first line matching the queried
hub/port pair by the substring rules (`" off"` gives `off`; `" power"`
with `"enable connect"` gives on-connected; `" power"` alone gives `on`;
any other matching line, or no matching line, gives `unknown`), and on
the section-8 sample block: `("2-1",3)` is on-connected, `("1-1.3",1)` is
`off`, `("1-1.3",3)` is on-connected, and `("1-1.3",2)` is `unknown`. -/
theorem C1_getStatus_classifies_first_matching_line :
    (∀ (output hub : String) (port : Int),
      output_search_port_status output hub port =
        getStatusOfFirstMatch output hub port)
    ∧ output_search_port_status sampleStatusOutput "2-1" 3 = "on connected"
    ∧ output_search_port_status sampleStatusOutput "1-1.3" 1 = "off"
    ∧ output_search_port_status sampleStatusOutput "1-1.3" 3 = "on connected"
    ∧ output_search_port_status sampleStatusOutput "1-1.3" 2 = "unknown" :=
  ⟨fun output hub port => statusScan_eq_firstMatch hub port _ none,
    by decide, by decide, by decide, by decide⟩

/-- C3 (counterexample).  The claim promises the hub and the parsed port
of the first port line, within a hub section, whose text contains the
substring.  On this output the first—and only—such line is
`"Port 0: 0100 power SERIAL123"` inside hub section `1-1` (its parsed
port number is 0 and it contains the substring), so the claim demands
`(some "1-1", some 0)`; the source skips the line because the Python
truthiness test `if current_hub and current_port` rejects port number 0,
and returns `(none, none)`. -/
theorem C3_counterexample_port_zero :
    line_search_update_hub "Current status for hub 1-1" none = some "1-1"
    ∧ line_search_port "Port 0: 0100 power SERIAL123" = some 0
    ∧ strContains "Port 0: 0100 power SERIAL123" "SERIAL123" = true
    ∧ output_search_hub_port_by_desc
        "Current status for hub 1-1\nPort 0: 0100 power SERIAL123" "SERIAL123"
        = (none, none) := by
  refine ⟨by decide, by decide, by decide, by decide⟩

/-- C3 (amended).  `getHubPortByDesc` returns, for the first line within a
hub section that parses to a non-zero port number and whose text contains
the substring, the pair (current hub of that section, parsed port); if no
such line exists it returns (null, null).  On the section-4.1 docstring
sample it returns `("1-1", 2)` for substring `"1106035A012D2400"` and
(null, null) for a substring occurring in no line. -/
theorem C3_getHubPortByDesc_first_qualifying_line :
    (∀ (output desc : String),
      output_search_hub_port_by_desc output desc =
        findDescHubPort desc (pyLines (pyStrip output)) none)
    ∧ output_search_hub_port_by_desc sampleDescOutput "1106035A012D2400"
        = (some "1-1", some 2)
    ∧ output_search_hub_port_by_desc sampleDescOutput "XYZ" = (none, none) :=
  ⟨fun output desc => descScan_eq_findDesc desc _ none, by decide, by decide⟩

/-- C2.  Evaluation of `Uhubctl.__run_cmd` at the two non-zero-exit cases.
The "no compatible devices" case leaves an empty captured output and logs
nothing, as documented.  For any other non-zero exit, however, the source
prints the error and assigns `""` but then falls through to the final
assignment, so the captured output is the process stdout — here the
non-empty string `"partial output\n"` — although the method's own
docstring promises "An empty string if no devices are detected or an
error occurs". -/
theorem C2_runCmd_error_fallthrough :
    runUhubCmd
        { returncode := 1, stdout := "x",
          stderr := "No compatible devices detected!\nRun with -h to get usage info." }
      = { last_cmd_output := "", logged_error := false }
    ∧ runUhubCmd
        { returncode := 1, stdout := "partial output\n", stderr := "usb error" }
      = { last_cmd_output := "partial output\n", logged_error := true }
    ∧ ("partial output\n" : String) ≠ "" := by
  refine ⟨by decide, by decide, by decide⟩

/-! ## run_test_plan.py — `TestRunner` -/

/-- A supported-device requirement entry of the test plan
(`{board, version?}` dictionaries). -/
structure SupportedDev where
  board : String
  version : Option String
deriving DecidableEq, Repr

/-- `TestRunner.__determine_implicit_type` (it only reads `stub_script`
and `post_test_delay_ms`, both assigned before the call). -/
def determine_implicit_type (stub_script : Option String)
    (post_test_delay_ms : Int) : String :=
  if stub_script.isSome then "multi_stub"
  else if post_test_delay_ms > 0 then "single_post_delay"
  else "single"

/-- The data fields of a `TestRunner` instance used by the execution
engine (the runner functions themselves are subprocess calls, modelled
through the environment of the simulated run below). -/
structure TestRunner where
  name : String
  test_script_list : List String
  test_exclude_list : List String
  post_test_delay_ms : Int
  stub_script : Option String
  supported_dut_dev_list : List SupportedDev
  supported_stub_dev_list : List SupportedDev
  post_stub_delay_ms : Int
  custom_args : List String
  type : String
deriving DecidableEq, Repr

/-- `TestRunner.__init__`'s computation of `self.type`: the explicit
`test_type` if given, otherwise the inferred type.  Parameters follow the
order of the Python constructor (the MicroPython directory parameter,
unused by any claim, is omitted). -/
def mkTestRunner (name : String) (test_script_list : List String)
    (test_exclude_list : List String) (post_test_delay_ms : Int)
    (stub_script : Option String)
    (supported_dut_dev_list : List SupportedDev)
    (supported_stub_dev_list : List SupportedDev)
    (post_stub_delay_ms : Int) (test_type : Option String)
    (custom_args : List String) : TestRunner :=
  { name, test_script_list, test_exclude_list, post_test_delay_ms,
    stub_script, supported_dut_dev_list, supported_stub_dev_list,
    post_stub_delay_ms, custom_args,
    type :=
      match test_type with
      | some t => t
      | none => determine_implicit_type stub_script post_test_delay_ms }

/-- `TestRunner.requires_multiple_devs`: `"multi" in self.type`. -/
def TestRunner.requires_multiple_devs (t : TestRunner) : Bool :=
  strContains t.type "multi"

/-- `TestRunner.are_supported_devs_available`. -/
def TestRunner.are_supported_devs_available (t : TestRunner)
    (dut_port stub_port : Option String) : Bool :=
  if dut_port = none then false
  else if t.requires_multiple_devs ∧ stub_port = none then false
  else true

/-- C9.  The test type is the explicit one when given; otherwise it is
inferred as `multi_stub` when a stub script is present, else
`single_post_delay` when the post-test delay is positive, else `single` —
and an inferred type is never `multi` and never `custom`. -/
theorem C9_type_inference :
    (∀ (n : String) (scripts : List String) (d : Int) (ss : Option String)
        (t : String),
      (mkTestRunner n scripts [] d ss [] [] 0 (some t) []).type = t)
    ∧ (∀ (n : String) (scripts : List String) (d : Int) (s : String),
        (mkTestRunner n scripts [] d (some s) [] [] 0 none []).type
          = "multi_stub")
    ∧ (∀ (n : String) (scripts : List String) (d : Int), d > 0 →
        (mkTestRunner n scripts [] d none [] [] 0 none []).type
          = "single_post_delay")
    ∧ (∀ (n : String) (scripts : List String) (d : Int), ¬ d > 0 →
        (mkTestRunner n scripts [] d none [] [] 0 none []).type = "single")
    ∧ (∀ (ss : Option String) (d : Int),
        determine_implicit_type ss d ≠ "multi"
          ∧ determine_implicit_type ss d ≠ "custom") := by
  refine ⟨fun n scripts d ss t => rfl,
    fun n scripts d s => rfl,
    fun n scripts d hd => ?_,
    fun n scripts d hd => ?_,
    fun ss d => ?_⟩
  · simp [mkTestRunner, determine_implicit_type, hd]
  · simp [mkTestRunner, determine_implicit_type, hd]
  · unfold determine_implicit_type
    split
    · exact ⟨by decide, by decide⟩
    · split
      · exact ⟨by decide, by decide⟩
      · exact ⟨by decide, by decide⟩

/-- Witness for the hypotheses of C9: a concrete positive and
non-positive delay. -/
theorem C9_type_inference_witness :
    (mkTestRunner "t" ["a.py"] [] 5 none [] [] 0 none []).type
        = "single_post_delay"
    ∧ (mkTestRunner "t" ["a.py"] [] 0 none [] [] 0 none []).type = "single" :=
  ⟨C9_type_inference.2.2.1 "t" ["a.py"] 5 (by decide),
    C9_type_inference.2.2.2.1 "t" ["a.py"] 0 (by decide)⟩

/-! ## run_test_plan.py — `TestPlanResults` -/

/-- `TestPlanResults.TestRetries`: a retry-ledger entry. -/
structure TestRetries where
  test_name : String
  retries : Int
deriving DecidableEq, Repr

/-- The state of a `TestPlanResults` instance. -/
structure TestPlanResults where
  pass_test_name_list : List String
  skip_test_name_list : List String
  fail_test_name_list : List String
  max_retries : Int
  retry_test_list : List TestRetries
deriving DecidableEq, Repr

/-- `TestPlanResults.__init__`. -/
def TestPlanResults.init (max_retries : Int) : TestPlanResults :=
  { pass_test_name_list := [], skip_test_name_list := [],
    fail_test_name_list := [], max_retries, retry_test_list := [] }

/-- Python in-place update `l[i].f = g(l[i].f)` on a list position. -/
def listModify {α : Type} (f : α → α) : List α → Nat → List α
  | [], _ => []
  | a :: t, 0 => f a :: t
  | a :: t, n + 1 => a :: listModify f t n

/-- Python `list.remove(x)`: delete the first element equal to `x`
(no-op here instead of `ValueError` when absent; the source only calls it
on present elements). -/
def removeFirst {α : Type} [DecidableEq α] : List α → α → List α
  | [], _ => []
  | a :: t, x => if a = x then t else a :: removeFirst t x

/-- `TestPlanResults.__get_test_retry_index`: index of the first ledger
entry with the given name (the `enumerate` loop with early return). -/
def get_test_retry_index : List TestRetries → String → Option Nat
  | [], _ => none
  | e :: t, test_name =>
    if e.test_name = test_name then some 0
    else (get_test_retry_index t test_name).map (· + 1)

/-- Ledger update of the repeated-failure branch of `register_fail`:
decrement the entry at the found index, do nothing when the index
lookup yields `None`. -/
def failDecrementUpdate (l : List TestRetries) (test_name : String) :
    List TestRetries :=
  match get_test_retry_index l test_name with
  | some i => listModify (fun e => { e with retries := e.retries - 1 }) l i
  | none => l

/-- Ledger update of `register_pass` on a previously failed name: look the
entry up by index, then remove that object by value (`list.remove`), do
nothing when the index lookup yields `None`. -/
def passRemoveUpdate (l : List TestRetries) (test_name : String) :
    List TestRetries :=
  match get_test_retry_index l test_name with
  | some i =>
    match l[i]? with
    | some obj => removeFirst l obj
    | none => l
  | none => l

/-- `TestPlanResults.register_skip`. -/
def TestPlanResults.register_skip (r : TestPlanResults) (test_name : String) :
    TestPlanResults :=
  { r with skip_test_name_list := r.skip_test_name_list ++ [test_name] }

/-- `TestPlanResults.register_fail`: first failure appends to the fail
list and creates a ledger entry with `max_retries`; a repeated failure
decrements the entry found by `__get_test_retry_index`. -/
def TestPlanResults.register_fail (r : TestPlanResults) (test_name : String) :
    TestPlanResults :=
  if test_name ∉ r.fail_test_name_list then
    { r with
      fail_test_name_list := r.fail_test_name_list ++ [test_name],
      retry_test_list :=
        r.retry_test_list ++ [{ test_name, retries := r.max_retries }] }
  else
    { r with
      retry_test_list := failDecrementUpdate r.retry_test_list test_name }

/-- `TestPlanResults.register_pass`: remove the name from the fail list
and its entry (looked up by index, removed by value) from the ledger,
then append to the pass list if not present. -/
def TestPlanResults.register_pass (r : TestPlanResults) (test_name : String) :
    TestPlanResults :=
  let r1 :=
    if test_name ∈ r.fail_test_name_list then
      { r with
        fail_test_name_list := removeFirst r.fail_test_name_list test_name,
        retry_test_list := passRemoveUpdate r.retry_test_list test_name }
    else r
  if test_name ∈ r1.pass_test_name_list then r1
  else { r1 with pass_test_name_list := r1.pass_test_name_list ++ [test_name] }

/-- `TestPlanResults.filter_retries`: the nested loop appends a test once
for every ledger entry that has its name and a positive remaining count. -/
def TestPlanResults.filter_retries (r : TestPlanResults) :
    List TestRunner → List TestRunner
  | [] => []
  | t :: rest =>
    (r.retry_test_list.filterMap fun retry =>
      if t.name = retry.test_name ∧ retry.retries > 0 then some t else none)
      ++ r.filter_retries rest

/-! ### Canonical forms of the ledger updates

The index-based updates of the source are equal to direct "first entry
with this name" list operations, which are easier to reason about. -/

/-- Decrement the first ledger entry carrying the given name. -/
def decFirstByName : List TestRetries → String → List TestRetries
  | [], _ => []
  | e :: t, n =>
    if e.test_name = n then { e with retries := e.retries - 1 } :: t
    else e :: decFirstByName t n

/-- Drop the first ledger entry carrying the given name. -/
def eraseFirstByName : List TestRetries → String → List TestRetries
  | [], _ => []
  | e :: t, n => if e.test_name = n then t else e :: eraseFirstByName t n

theorem get_test_retry_index_name :
    ∀ (l : List TestRetries) (n : String) (i : Nat) (obj : TestRetries),
      get_test_retry_index l n = some i → l[i]? = some obj →
        obj.test_name = n
  | [], n, i, obj => by intro h; simp [get_test_retry_index] at h
  | e :: t, n, i, obj => by
    rw [get_test_retry_index]
    by_cases he : e.test_name = n
    · rw [if_pos he]
      intro h1 h2
      obtain rfl : i = 0 := by simpa using h1.symm
      obtain rfl : obj = e := by simpa using h2.symm
      exact he
    · rw [if_neg he]
      rcases hidx : get_test_retry_index t n with _ | j
      · intro h1; simp at h1
      · intro h1 h2
        obtain rfl : i = j + 1 := by simpa using h1.symm
        exact get_test_retry_index_name t n j obj hidx (by simpa using h2)

theorem failDecrementUpdate_eq (l : List TestRetries) (n : String) :
    failDecrementUpdate l n = decFirstByName l n := by
  induction l with
  | nil => rfl
  | cons e t ih =>
    by_cases he : e.test_name = n
    · simp [failDecrementUpdate, get_test_retry_index, decFirstByName, he,
        listModify]
    · rcases hidx : get_test_retry_index t n with _ | j
      · simp [failDecrementUpdate, get_test_retry_index, decFirstByName, he,
          hidx]
        simpa [failDecrementUpdate, hidx] using ih
      · have ih2 :
            listModify (fun e => { e with retries := e.retries - 1 }) t j
              = decFirstByName t n := by
          simpa [failDecrementUpdate, hidx] using ih
        simp [failDecrementUpdate, get_test_retry_index, decFirstByName, he,
          hidx, listModify, ih2]

theorem passRemoveUpdate_eq (l : List TestRetries) (n : String) :
    passRemoveUpdate l n = eraseFirstByName l n := by
  induction l with
  | nil => rfl
  | cons e t ih =>
    by_cases he : e.test_name = n
    · simp [passRemoveUpdate, get_test_retry_index, eraseFirstByName, he,
        removeFirst]
    · rcases hidx : get_test_retry_index t n with _ | j
      · simp [passRemoveUpdate, get_test_retry_index, eraseFirstByName, he,
          hidx]
        simpa [passRemoveUpdate, hidx] using ih
      · rcases hget : t[j]? with _ | obj
        · simp [passRemoveUpdate, get_test_retry_index, eraseFirstByName, he,
            hidx, hget]
          simpa [passRemoveUpdate, hidx, hget] using ih
        · have hne : e ≠ obj := by
            intro hcontra
            exact he (hcontra ▸ get_test_retry_index_name t n j obj hidx hget)
          have ih2 : removeFirst t obj = eraseFirstByName t n := by
            simpa [passRemoveUpdate, hidx, hget] using ih
          simp [passRemoveUpdate, get_test_retry_index, eraseFirstByName, he,
            hidx, hget, removeFirst, hne, ih2]

/-- `register_fail` in canonical form. -/
theorem register_fail_eq (r : TestPlanResults) (n : String) :
    r.register_fail n =
      if n ∈ r.fail_test_name_list then
        { r with retry_test_list := decFirstByName r.retry_test_list n }
      else
        { r with
          fail_test_name_list := r.fail_test_name_list ++ [n],
          retry_test_list :=
            r.retry_test_list ++ [{ test_name := n, retries := r.max_retries }] } := by
  rw [TestPlanResults.register_fail]
  by_cases h : n ∈ r.fail_test_name_list
  · rw [if_neg (by simpa using h), if_pos h, failDecrementUpdate_eq]
  · rw [if_pos (by simpa using h), if_neg h]

/-- `register_pass` in canonical form. -/
theorem register_pass_eq (r : TestPlanResults) (n : String) :
    r.register_pass n =
      (fun r1 =>
          if n ∈ r1.pass_test_name_list then r1
          else { r1 with
                 pass_test_name_list := r1.pass_test_name_list ++ [n] })
        (if n ∈ r.fail_test_name_list then
          { r with
            fail_test_name_list := removeFirst r.fail_test_name_list n,
            retry_test_list := eraseFirstByName r.retry_test_list n }
        else r) := by
  rw [TestPlanResults.register_pass, passRemoveUpdate_eq]

/-- C4.  Starting from a fresh result tracker with any `maxRetries`, the
sequence fail, fail, pass on any name creates the ledger entry at
`maxRetries`, decrements it exactly once, and finally removes it along
with the fail-list entry; and with `maxRetries = 0` a single failure
keeps the name in the fail list while `filter_retries` returns the empty
retry list, excluding the name from the next pass. -/
theorem C4_retry_ledger_law (n : String) (m : Int) :
    ((TestPlanResults.init m).register_fail n).retry_test_list
        = [{ test_name := n, retries := m }]
    ∧ (((TestPlanResults.init m).register_fail n).register_fail n).retry_test_list
        = [{ test_name := n, retries := m - 1 }]
    ∧ ((((TestPlanResults.init m).register_fail n).register_fail n).register_pass n).retry_test_list
        = []
    ∧ ((((TestPlanResults.init m).register_fail n).register_fail n).register_pass n).fail_test_name_list
        = []
    ∧ ((((TestPlanResults.init m).register_fail n).register_fail n).register_pass n).pass_test_name_list
        = [n]
    ∧ ((TestPlanResults.init 0).register_fail n).fail_test_name_list = [n]
    ∧ ∀ (ts : List TestRunner),
        ((TestPlanResults.init 0).register_fail n).filter_retries ts = [] := by
  have h1 : (TestPlanResults.init m).register_fail n =
      { pass_test_name_list := [], skip_test_name_list := [],
        fail_test_name_list := [n], max_retries := m,
        retry_test_list := [{ test_name := n, retries := m }] } := by
    rw [register_fail_eq]; simp [TestPlanResults.init]
  have h2 : ((TestPlanResults.init m).register_fail n).register_fail n =
      { pass_test_name_list := [], skip_test_name_list := [],
        fail_test_name_list := [n], max_retries := m,
        retry_test_list := [{ test_name := n, retries := m - 1 }] } := by
    rw [h1, register_fail_eq]; simp [decFirstByName]
  have h3 : (((TestPlanResults.init m).register_fail n).register_fail n).register_pass n =
      { pass_test_name_list := [n], skip_test_name_list := [],
        fail_test_name_list := [], max_retries := m,
        retry_test_list := [] } := by
    rw [h2, register_pass_eq]
    simp [removeFirst, eraseFirstByName]
  have h4 : (TestPlanResults.init 0).register_fail n =
      { pass_test_name_list := [], skip_test_name_list := [],
        fail_test_name_list := [n], max_retries := 0,
        retry_test_list := [{ test_name := n, retries := 0 }] } := by
    rw [register_fail_eq]; simp [TestPlanResults.init]
  refine ⟨by rw [h1], by rw [h2], by rw [h3], by rw [h3], by rw [h3],
    by rw [h4], ?_⟩
  intro ts
  induction ts with
  | nil => rfl
  | cons t rest ih =>
    rw [TestPlanResults.filter_retries, ih, h4]
    simp

/-! ## devs.py / run_test_plan.py — devices and the execution engine -/

/-- A `DevSwitch` binding: hub location and optional port. -/
structure DevSwitch where
  hub : String
  port : Option Int
deriving DecidableEq, Repr

/-- A resolved `Device` record (devs.py): the registry fields plus the
optional endpoint bindings established at construction time.  The serial
binding is modelled by the address string a bound `DevAccessSerial`
carries (`get_address` is its identity accessor); an unresolved binding
is `none` ("not currently connected"). -/
structure Device where
  name : String
  uid : String
  features : List String
  access : Option String
  switch : Option DevSwitch
deriving DecidableEq, Repr

/-- A device with no bindings, as the engine's `Device()` placeholders
for unresolved roles. -/
def Device.unresolved : Device :=
  { name := "", uid := "", features := [], access := none, switch := none }

/-- `TestPlanRunner.__get_test_ports`: a port is the address of the
bound access endpoint, `None` without one. -/
def get_test_ports (dut_dev stub_dev : Device) : Option String × Option String :=
  (dut_dev.access, stub_dev.access)

/-- Environment of a run: the device resolution performed afresh in every
pass (`get_test_devs`, dependent on the hardware state at that time) and
the exit code of each test invocation (`test.run`, a subprocess).  Both
receive the pass index because the external world may change between
passes. -/
structure SimEnv where
  devs : Nat → TestRunner → Device × Device
  result : Nat → TestRunner → Int

/-- Availability of the devices resolved for a test in a given pass, as
computed by the loop body from `get_test_devs` and `__get_test_ports`. -/
def stepAvailable (env : SimEnv) (passIdx : Nat) (test : TestRunner) : Bool :=
  let (dut_dev, stub_dev) := env.devs passIdx test
  let (dut_port, stub_port) := get_test_ports dut_dev stub_dev
  test.are_supported_devs_available dut_port stub_port

/-- One iteration of the `for test in test_list` body of
`TestPlanRunner.run`: skip when devices are unavailable, otherwise run
the test and register the outcome by exit code.  (The reset sequencing
between the gate and the invocation only drives hardware and sleeps; it
does not touch the tracker.) -/
def runStep (env : SimEnv) (passIdx : Nat) (r : TestPlanResults)
    (test : TestRunner) : TestPlanResults :=
  if !stepAvailable env passIdx test then
    r.register_skip test.name
  else if env.result passIdx test ≠ 0 then
    r.register_fail test.name
  else
    r.register_pass test.name

/-- One pass of the while-loop over the current test list. -/
def runPass (env : SimEnv) (passIdx : Nat) (tests : List TestRunner)
    (r : TestPlanResults) : TestPlanResults :=
  tests.foldl (runStep env passIdx) r

/-- The retry while-loop of `TestPlanRunner.run`, fuel-limited: repeats
passes, refiltering the test list, while the filtered retry list is
non-empty.  Returns `some (number of passes performed, final tracker)`
when the loop exits within `fuel` passes, `none` otherwise. -/
def runLoop (env : SimEnv) : Nat → Nat → List TestRunner → TestPlanResults →
    Option (Nat × TestPlanResults)
  | 0, _, _, _ => none
  | fuel + 1, passIdx, tests, r =>
    let r2 := runPass env passIdx tests r
    let tests2 := r2.filter_retries tests
    if tests2.isEmpty then some (passIdx + 1, r2)
    else runLoop env fuel (passIdx + 1) tests2 r2

/-- `TestPlanRunner.run`: start from a fresh tracker and, after the loop,
exit with code 1 exactly when the fail list is non-empty. -/
def runPlan (env : SimEnv) (fuel : Nat) (tests : List TestRunner)
    (max_retries : Int) : Option (Nat × TestPlanResults × Int) :=
  match runLoop env fuel 0 tests (TestPlanResults.init max_retries) with
  | some (n, r) => some (n, r, if r.fail_test_name_list.isEmpty then 0 else 1)
  | none => none

/-- The tracker states after each processed test of one pass. -/
def runPassStates (env : SimEnv) (passIdx : Nat) :
    List TestRunner → TestPlanResults → List TestPlanResults
  | [], _ => []
  | t :: ts, r =>
    let r2 := runStep env passIdx r t
    r2 :: runPassStates env passIdx ts r2

/-- Every intermediate tracker state the loop passes through (one entry
per register call it performs), fuel-limited like `runLoop`. -/
def runLoopStates (env : SimEnv) : Nat → Nat → List TestRunner →
    TestPlanResults → List TestPlanResults
  | 0, _, _, _ => []
  | fuel + 1, passIdx, tests, r =>
    let states := runPassStates env passIdx tests r
    let r2 := runPass env passIdx tests r
    let tests2 := r2.filter_retries tests
    states ++
      (if tests2.isEmpty then []
        else runLoopStates env fuel (passIdx + 1) tests2 r2)

/-- Stub selection loop of `TestPlanRunnerHIL.get_test_devs`: the first
accessible candidate whose address differs from the DUT's address,
`Device()` when none qualifies. -/
def pickStubDev (stub_dev_list : List Device) (dut_addr : String) : Device :=
  (stub_dev_list.find? (fun d =>
    match d.access with
    | none => false
    | some a => a != dut_addr)).getD Device.unresolved

/-- Tail of `TestPlanRunnerHIL.get_test_devs` once the DUT candidate is
fixed: bail out without a stub when the DUT is inaccessible, otherwise
select a stub only for two-device tests. -/
def get_test_devs_from (dut_dev : Device) (stub_dev_list : List Device)
    (requires_multiple : Bool) : Device × Device :=
  match dut_dev.access with
  | none => (dut_dev, Device.unresolved)
  | some dut_addr =>
    if requires_multiple then (dut_dev, pickStubDev stub_dev_list dut_addr)
    else (dut_dev, Device.unresolved)

/-- `TestPlanRunnerHIL.get_test_devs`, starting from the two
role-resolved candidate lists produced by `__get_devs_for_role`: take
the first accessible DUT candidate; when the test needs two devices,
take the first accessible stub candidate whose serial address differs
from the DUT's; unresolved roles are the `Device()` placeholder. -/
def get_test_devs_core (dut_dev_list stub_dev_list : List Device)
    (requires_multiple : Bool) : Device × Device :=
  if dut_dev_list.isEmpty then (Device.unresolved, Device.unresolved)
  else
    get_test_devs_from
      ((dut_dev_list.find? (fun d => d.access.isSome)).getD Device.unresolved)
      stub_dev_list requires_multiple

/-- The DUT resolved by the section-8 end-to-end scenarios. -/
def dutDeviceT3 : Device :=
  { name := "B", uid := "UID3", features := [], access := some "/dev/ttyACM0",
    switch := none }

/-- Test `T3` of the section-8 end-to-end scenario: a `single` test. -/
def testT3 : TestRunner :=
  mkTestRunner "T3" ["basics"] [] 0 none
    [{ board := "B", version := none }] [] 0 none []

/-- Environment of the C7 scenario: the DUT is always resolved and
accessible, and the test script always exits 1. -/
def envAlwaysFail : SimEnv :=
  { devs := fun _ _ => (dutDeviceT3, Device.unresolved),
    result := fun _ _ => 1 }

/-- C7.  With one always-failing `single` test and `maxRetries = 2`, the
engine performs exactly 3 passes (initial plus two retries), ends with
`failed = [T3]` (ledger exhausted at 0), and exits with code 1. -/
theorem C7_three_passes_then_exit_one :
    runPlan envAlwaysFail 10 [testT3] 2 =
      some (3,
        { pass_test_name_list := [], skip_test_name_list := [],
          fail_test_name_list := ["T3"], max_retries := 2,
          retry_test_list := [{ test_name := "T3", retries := 0 }] },
        1) := by decide

/-- The stub's address, when bound, differs from the fixed DUT device's
address. -/
theorem get_test_devs_from_addr_ne (dut_dev : Device)
    (stub_dev_list : List Device) (requires_multiple : Bool) (a b : String)
    (hs : (get_test_devs_from dut_dev stub_dev_list requires_multiple).2.access
        = some a)
    (hd : (get_test_devs_from dut_dev stub_dev_list requires_multiple).1.access
        = some b) :
    a ≠ b := by
  unfold get_test_devs_from at hs hd
  rcases hacc : dut_dev.access with _ | dut_addr
  · simp only [hacc] at hs
    simp [Device.unresolved] at hs
  · simp only [hacc] at hs hd
    by_cases hrm : requires_multiple = true
    · rw [if_pos hrm] at hs hd
      have hs2 : (pickStubDev stub_dev_list dut_addr).access = some a := hs
      have hd2 : dut_dev.access = some b := hd
      have hb : dut_addr = b := Option.some_inj.mp (hacc.symm.trans hd2)
      unfold pickStubDev at hs2
      rcases hfind : stub_dev_list.find? (fun d =>
          match d.access with
          | none => false
          | some x => x != dut_addr) with _ | d
      · rw [hfind] at hs2
        simp [Device.unresolved] at hs2
      · rw [hfind] at hs2
        have hp := List.find?_some hfind
        simp only [Option.getD_some] at hs2
        simp only [hs2] at hp
        rw [← hb]
        simpa using hp
    · rw [if_neg hrm] at hs
      have hs2 : Device.unresolved.access = some a := hs
      simp [Device.unresolved] at hs2

/-- C10.  Whenever the HIL resolver returns a stub device with a bound
access endpoint, the stub's serial address differs from the returned DUT
device's address: candidates sharing the DUT's address are skipped. -/
theorem C10_stub_address_differs_from_dut
    (dut_dev_list stub_dev_list : List Device) (requires_multiple : Bool)
    (a b : String)
    (hs : (get_test_devs_core dut_dev_list stub_dev_list requires_multiple).2.access
        = some a)
    (hd : (get_test_devs_core dut_dev_list stub_dev_list requires_multiple).1.access
        = some b) :
    a ≠ b := by
  unfold get_test_devs_core at hs hd
  by_cases hempty : dut_dev_list.isEmpty
  · rw [if_pos hempty] at hs
    simp [Device.unresolved] at hs
  · rw [if_neg hempty] at hs hd
    exact get_test_devs_from_addr_ne _ _ _ a b hs hd

/-- DUT candidate used by the C10 witness. -/
def devCandA : Device := ⟨"A", "u1", [], some "/dev/1", none⟩

/-- Stub candidate sharing the DUT address (must be skipped). -/
def devCandB : Device := ⟨"B", "u2", [], some "/dev/1", none⟩

/-- Stub candidate with a distinct address (must be selected). -/
def devCandC : Device := ⟨"C", "u3", [], some "/dev/2", none⟩

/-- Witness for C10: the resolver skips the stub candidate that shares
the DUT's address and picks the next one. -/
theorem C10_stub_address_differs_from_dut_witness :
    (get_test_devs_core [devCandA] [devCandB, devCandC] true).2.access
        = some "/dev/2"
    ∧ (get_test_devs_core [devCandA] [devCandB, devCandC] true).1.access
        = some "/dev/1"
    ∧ ("/dev/2" : String) ≠ "/dev/1" := by
  refine ⟨by decide, by decide,
    C10_stub_address_differs_from_dut [devCandA] [devCandB, devCandC] true
      "/dev/2" "/dev/1" (by decide) (by decide)⟩

/-! ## Facts about `filter_retries` and the availability gate -/

/-- A test appears in a filtered retry list only if it is in the input
list and some ledger entry carries its name with a positive remaining
count. -/
theorem filter_retries_mem (r : TestPlanResults) :
    ∀ (ts : List TestRunner) (u : TestRunner),
      u ∈ r.filter_retries ts →
        u ∈ ts ∧ ∃ e ∈ r.retry_test_list, e.test_name = u.name ∧ 0 < e.retries
  | [], u => by simp [TestPlanResults.filter_retries]
  | t :: rest, u => by
    intro hmem
    rw [TestPlanResults.filter_retries] at hmem
    rcases List.mem_append.mp hmem with hleft | hright
    · obtain ⟨e, he, hfe⟩ := List.mem_filterMap.mp hleft
      by_cases hc : t.name = e.test_name ∧ e.retries > 0
      · rw [if_pos hc] at hfe
        obtain rfl : t = u := Option.some_inj.mp hfe
        exact ⟨List.mem_cons_self t rest, e, he, hc.1.symm, hc.2⟩
      · rw [if_neg hc] at hfe
        exact absurd hfe (Option.noConfusion)
    · obtain ⟨hin, hex⟩ := filter_retries_mem r rest u hright
      exact ⟨List.mem_cons_of_mem t hin, hex⟩

/-- Environment of the C8 counterexample: the (always-failing) test's
device disappears exactly in pass 1 and is back afterwards. -/
def envC8 : SimEnv :=
  { devs := fun p _ =>
      (if p = 1 then Device.unresolved else dutDeviceT3, Device.unresolved),
    result := fun _ _ => 1 }

/-- Tracker after pass 0 of the C8 counterexample run. -/
def c8r1 : TestPlanResults := runPass envC8 0 [testT3] (TestPlanResults.init 2)

/-- Tracker after pass 1 (the skipping pass) of the C8 counterexample. -/
def c8r2 : TestPlanResults :=
  runPass envC8 1 (c8r1.filter_retries [testT3]) c8r1

/-- C8 (counterexample).  A test that failed in pass 0 and is skipped in
pass 1 (its ledger entry untouched) is reachable as a loop state, yet it
stays in the filtered retry list and is executed again in pass 2 — its
ledger entry is decremented there — so a skip is not terminal for a
previously failed test, refuting the claim's "never retried" part. -/
theorem C8_counterexample_skip_then_retried :
    c8r2.skip_test_name_list = ["T3"]
    ∧ c8r2.fail_test_name_list = ["T3"]
    ∧ c8r2 ∈ runLoopStates envC8 10 0 [testT3] (TestPlanResults.init 2)
    ∧ c8r2.filter_retries (c8r1.filter_retries [testT3]) = [testT3]
    ∧ (runPass envC8 2 (c8r2.filter_retries (c8r1.filter_retries [testT3]))
        c8r2).retry_test_list = [{ test_name := "T3", retries := 1 }] := by
  refine ⟨by decide, by decide, by decide, by decide, by decide⟩

/-- C8 (amended).  A test whose resolved devices are unavailable — the
DUT has no bound access endpoint, or two devices are required and the
stub has none — is registered as skipped and not executed in that pass
(the fail, pass and ledger state are untouched); and the skip is
terminal for a test with no ledger entry: any test of a later filtered
list owes its place to a pre-existing positive ledger entry, which only
a failure creates, so a never-failed skipped test is never retried.  (A
previously failed test that is skipped stays in the retry list.) -/
theorem C8_availability_gate (env : SimEnv) (p : Nat) (t : TestRunner)
    (r : TestPlanResults) (h : stepAvailable env p t = false) :
    runStep env p r t = r.register_skip t.name
    ∧ (r.register_skip t.name).fail_test_name_list = r.fail_test_name_list
    ∧ (r.register_skip t.name).pass_test_name_list = r.pass_test_name_list
    ∧ (r.register_skip t.name).retry_test_list = r.retry_test_list
    ∧ (∀ (dut stub : Device), dut.access = none →
        t.are_supported_devs_available (get_test_ports dut stub).1
          (get_test_ports dut stub).2 = false)
    ∧ (∀ (dut stub : Device), t.requires_multiple_devs = true →
        stub.access = none →
        t.are_supported_devs_available (get_test_ports dut stub).1
          (get_test_ports dut stub).2 = false)
    ∧ (∀ (ts : List TestRunner) (u : TestRunner),
        u ∈ (r.register_skip t.name).filter_retries ts →
          ∃ e ∈ r.retry_test_list, e.test_name = u.name ∧ 0 < e.retries) := by
  refine ⟨by rw [runStep, h]; rfl, rfl, rfl, rfl, ?_, ?_, ?_⟩
  · intro dut stub hacc
    rw [TestRunner.are_supported_devs_available]
    simp [get_test_ports, hacc]
  · intro dut stub hmulti hacc
    rw [TestRunner.are_supported_devs_available]
    simp [get_test_ports, hacc, hmulti]
  · intro ts u hmem
    exact (filter_retries_mem (r.register_skip t.name) ts u hmem).2

/-- Witness for C8: in the counterexample environment, pass 1 finds the
device gone, and the step reduces to a bare skip registration. -/
theorem C8_availability_gate_witness :
    stepAvailable envC8 1 testT3 = false
    ∧ runStep envC8 1 (TestPlanResults.init 2) testT3
        = (TestPlanResults.init 2).register_skip "T3" := by
  refine ⟨by decide, ?_⟩
  exact (C8_availability_gate envC8 1 testT3 (TestPlanResults.init 2)
    (by decide)).1

/-! ## List-level lemmas about the ledger operations -/

theorem removeFirst_sublist {α : Type} [DecidableEq α] :
    ∀ (l : List α) (a : α), List.Sublist (removeFirst l a) l
  | [], _ => List.Sublist.refl []
  | b :: t, a => by
    rw [removeFirst]
    by_cases h : b = a
    · rw [if_pos h]
      exact List.sublist_cons_self b t
    · rw [if_neg h]
      exact List.Sublist.cons₂ b (removeFirst_sublist t a)

theorem mem_removeFirst_of_ne {α : Type} [DecidableEq α] :
    ∀ (l : List α) (x a : α), x ∈ l → x ≠ a → x ∈ removeFirst l a
  | [], x, a => by simp
  | b :: t, x, a => by
    intro hx hne
    rw [removeFirst]
    by_cases h : b = a
    · rw [if_pos h]
      rcases List.mem_cons.mp hx with rfl | hxt
      · exact absurd h hne
      · exact hxt
    · rw [if_neg h]
      rcases List.mem_cons.mp hx with rfl | hxt
      · exact List.mem_cons_self x _
      · exact List.mem_cons_of_mem b (mem_removeFirst_of_ne t x a hxt hne)

theorem not_mem_removeFirst {α : Type} [DecidableEq α] :
    ∀ (l : List α) (a : α), l.Nodup → a ∉ removeFirst l a
  | [], a => by simp [removeFirst]
  | b :: t, a => by
    intro hnd
    rw [removeFirst]
    by_cases h : b = a
    · rw [if_pos h]
      subst h
      exact (List.nodup_cons.mp hnd).1
    · rw [if_neg h]
      intro hmem
      rcases List.mem_cons.mp hmem with rfl | hmem2
      · exact h rfl
      · exact not_mem_removeFirst t a (List.nodup_cons.mp hnd).2 hmem2

theorem decFirstByName_map_name :
    ∀ (l : List TestRetries) (n : String),
      (decFirstByName l n).map (·.test_name) = l.map (·.test_name)
  | [], _ => rfl
  | e :: t, n => by
    rw [decFirstByName]
    by_cases h : e.test_name = n
    · rw [if_pos h]; rfl
    · rw [if_neg h]
      simp [decFirstByName_map_name t n]

theorem eraseFirstByName_sublist :
    ∀ (l : List TestRetries) (n : String), List.Sublist (eraseFirstByName l n) l
  | [], _ => List.Sublist.refl []
  | e :: t, n => by
    rw [eraseFirstByName]
    by_cases h : e.test_name = n
    · rw [if_pos h]
      exact List.sublist_cons_self e t
    · rw [if_neg h]
      exact List.Sublist.cons₂ e (eraseFirstByName_sublist t n)

theorem eraseFirstByName_no_name :
    ∀ (l : List TestRetries) (n : String),
      (l.map (·.test_name)).Nodup →
        ∀ e ∈ eraseFirstByName l n, e.test_name ≠ n
  | [], n => by simp [eraseFirstByName]
  | e :: t, n => by
    intro hnd e2 hmem
    rw [eraseFirstByName] at hmem
    by_cases h : e.test_name = n
    · rw [if_pos h] at hmem
      intro hcontra
      have : e.test_name ∉ t.map (·.test_name) := by
        simpa using (List.nodup_cons.mp hnd).1
      exact this (h ▸ hcontra ▸ List.mem_map_of_mem (·.test_name) hmem)
    · rw [if_neg h] at hmem
      rcases List.mem_cons.mp hmem with rfl | hmem2
      · exact h
      · exact eraseFirstByName_no_name t n (List.nodup_cons.mp hnd).2 e2 hmem2

/-- Total remaining positive retry budget of a ledger: the termination
measure of the retry loop. -/
def sumPosRetries (l : List TestRetries) : Nat :=
  (l.map (fun e => e.retries.toNat)).sum

theorem sumPosRetries_decFirst_le :
    ∀ (l : List TestRetries) (n : String),
      sumPosRetries (decFirstByName l n) ≤ sumPosRetries l
  | [], _ => le_refl _
  | e :: t, n => by
    rw [decFirstByName]
    by_cases h : e.test_name = n
    · rw [if_pos h]
      simp only [sumPosRetries, List.map_cons, List.sum_cons]
      have : (e.retries - 1).toNat ≤ e.retries.toNat := by omega
      omega
    · rw [if_neg h]
      simp only [sumPosRetries, List.map_cons, List.sum_cons]
      have := sumPosRetries_decFirst_le t n
      simp only [sumPosRetries] at this
      omega

theorem sumPosRetries_decFirst_lt :
    ∀ (l : List TestRetries) (n : String),
      (l.map (·.test_name)).Nodup →
      (∃ e ∈ l, e.test_name = n ∧ 0 < e.retries) →
        sumPosRetries (decFirstByName l n) < sumPosRetries l
  | [], n => by simp
  | e :: t, n => by
    intro hnd
    rintro ⟨w, hw, hwn, hwpos⟩
    rw [decFirstByName]
    by_cases h : e.test_name = n
    · rw [if_pos h]
      simp only [sumPosRetries, List.map_cons, List.sum_cons]
      rcases List.mem_cons.mp hw with rfl | hwt
      · have : (w.retries - 1).toNat < w.retries.toNat := by omega
        omega
      · exfalso
        have : e.test_name ∉ t.map (·.test_name) := by
          simpa using (List.nodup_cons.mp hnd).1
        exact this ((h.trans hwn.symm) ▸ List.mem_map_of_mem (·.test_name) hwt)
    · rw [if_neg h]
      simp only [sumPosRetries, List.map_cons, List.sum_cons]
      rcases List.mem_cons.mp hw with rfl | hwt
      · exact absurd hwn h
      · have := sumPosRetries_decFirst_lt t n (List.nodup_cons.mp hnd).2
          ⟨w, hwt, hwn, hwpos⟩
        simp only [sumPosRetries] at this
        omega

theorem sumPosRetries_eraseFirst_le :
    ∀ (l : List TestRetries) (n : String),
      sumPosRetries (eraseFirstByName l n) ≤ sumPosRetries l
  | [], _ => le_refl _
  | e :: t, n => by
    rw [eraseFirstByName]
    by_cases h : e.test_name = n
    · rw [if_pos h]
      simp only [sumPosRetries, List.map_cons, List.sum_cons]
      omega
    · rw [if_neg h]
      simp only [sumPosRetries, List.map_cons, List.sum_cons]
      have := sumPosRetries_eraseFirst_le t n
      simp only [sumPosRetries] at this
      omega

theorem sumPosRetries_eraseFirst_lt :
    ∀ (l : List TestRetries) (n : String),
      (l.map (·.test_name)).Nodup →
      (∃ e ∈ l, e.test_name = n ∧ 0 < e.retries) →
        sumPosRetries (eraseFirstByName l n) < sumPosRetries l
  | [], n => by simp
  | e :: t, n => by
    intro hnd
    rintro ⟨w, hw, hwn, hwpos⟩
    rw [eraseFirstByName]
    by_cases h : e.test_name = n
    · rw [if_pos h]
      simp only [sumPosRetries, List.map_cons, List.sum_cons]
      rcases List.mem_cons.mp hw with rfl | hwt
      · have : 0 < w.retries.toNat := by omega
        omega
      · exfalso
        have : e.test_name ∉ t.map (·.test_name) := by
          simpa using (List.nodup_cons.mp hnd).1
        exact this ((h.trans hwn.symm) ▸ List.mem_map_of_mem (·.test_name) hwt)
    · rw [if_neg h]
      simp only [sumPosRetries, List.map_cons, List.sum_cons]
      rcases List.mem_cons.mp hw with rfl | hwt
      · exact absurd hwn h
      · have := sumPosRetries_eraseFirst_lt t n (List.nodup_cons.mp hnd).2
          ⟨w, hwt, hwn, hwpos⟩
        simp only [sumPosRetries] at this
        omega

/-! ## Field characterizations of the register operations -/

theorem register_skip_retry (r : TestPlanResults) (n : String) :
    (r.register_skip n).retry_test_list = r.retry_test_list := rfl

theorem register_skip_fail (r : TestPlanResults) (n : String) :
    (r.register_skip n).fail_test_name_list = r.fail_test_name_list := rfl

theorem register_skip_pass (r : TestPlanResults) (n : String) :
    (r.register_skip n).pass_test_name_list = r.pass_test_name_list := rfl

theorem register_skip_skip (r : TestPlanResults) (n : String) :
    (r.register_skip n).skip_test_name_list
      = r.skip_test_name_list ++ [n] := rfl

theorem register_fail_retry (r : TestPlanResults) (n : String) :
    (r.register_fail n).retry_test_list =
      if n ∈ r.fail_test_name_list then decFirstByName r.retry_test_list n
      else r.retry_test_list ++ [{ test_name := n, retries := r.max_retries }] := by
  rw [register_fail_eq]
  split <;> rfl

theorem register_fail_fail (r : TestPlanResults) (n : String) :
    (r.register_fail n).fail_test_name_list =
      if n ∈ r.fail_test_name_list then r.fail_test_name_list
      else r.fail_test_name_list ++ [n] := by
  rw [register_fail_eq]
  split <;> rfl

theorem register_fail_pass (r : TestPlanResults) (n : String) :
    (r.register_fail n).pass_test_name_list = r.pass_test_name_list := by
  rw [register_fail_eq]
  split <;> rfl

theorem register_fail_skip (r : TestPlanResults) (n : String) :
    (r.register_fail n).skip_test_name_list = r.skip_test_name_list := by
  rw [register_fail_eq]
  split <;> rfl

theorem pass_append_retry (r1 : TestPlanResults) (n : String) :
    (if n ∈ r1.pass_test_name_list then r1
      else { r1 with
             pass_test_name_list := r1.pass_test_name_list ++ [n] }).retry_test_list
      = r1.retry_test_list := by
  split <;> rfl

theorem pass_append_fail (r1 : TestPlanResults) (n : String) :
    (if n ∈ r1.pass_test_name_list then r1
      else { r1 with
             pass_test_name_list := r1.pass_test_name_list ++ [n] }).fail_test_name_list
      = r1.fail_test_name_list := by
  split <;> rfl

theorem pass_append_skip (r1 : TestPlanResults) (n : String) :
    (if n ∈ r1.pass_test_name_list then r1
      else { r1 with
             pass_test_name_list := r1.pass_test_name_list ++ [n] }).skip_test_name_list
      = r1.skip_test_name_list := by
  split <;> rfl

theorem pass_append_pass (r1 : TestPlanResults) (n : String) :
    (if n ∈ r1.pass_test_name_list then r1
      else { r1 with
             pass_test_name_list := r1.pass_test_name_list ++ [n] }).pass_test_name_list
      = (if n ∈ r1.pass_test_name_list then r1.pass_test_name_list
          else r1.pass_test_name_list ++ [n]) := by
  split <;> rfl

theorem register_pass_retry (r : TestPlanResults) (n : String) :
    (r.register_pass n).retry_test_list =
      if n ∈ r.fail_test_name_list then eraseFirstByName r.retry_test_list n
      else r.retry_test_list := by
  rw [register_pass_eq]
  by_cases h : n ∈ r.fail_test_name_list
  · simp only [if_pos h]
    exact pass_append_retry
      { r with fail_test_name_list := removeFirst r.fail_test_name_list n, retry_test_list := eraseFirstByName r.retry_test_list n } n
  · simp only [if_neg h]
    exact pass_append_retry r n

theorem register_pass_fail (r : TestPlanResults) (n : String) :
    (r.register_pass n).fail_test_name_list =
      if n ∈ r.fail_test_name_list then removeFirst r.fail_test_name_list n
      else r.fail_test_name_list := by
  rw [register_pass_eq]
  by_cases h : n ∈ r.fail_test_name_list
  · simp only [if_pos h]
    exact pass_append_fail
      { r with fail_test_name_list := removeFirst r.fail_test_name_list n, retry_test_list := eraseFirstByName r.retry_test_list n } n
  · simp only [if_neg h]
    exact pass_append_fail r n

theorem register_pass_skip (r : TestPlanResults) (n : String) :
    (r.register_pass n).skip_test_name_list = r.skip_test_name_list := by
  rw [register_pass_eq]
  by_cases h : n ∈ r.fail_test_name_list
  · simp only [if_pos h]
    exact pass_append_skip
      { r with fail_test_name_list := removeFirst r.fail_test_name_list n, retry_test_list := eraseFirstByName r.retry_test_list n } n
  · simp only [if_neg h]
    exact pass_append_skip r n

theorem register_pass_pass (r : TestPlanResults) (n : String) :
    (r.register_pass n).pass_test_name_list =
      if n ∈ r.pass_test_name_list then r.pass_test_name_list
      else r.pass_test_name_list ++ [n] := by
  rw [register_pass_eq]
  by_cases h : n ∈ r.fail_test_name_list
  · simp only [if_pos h]
    exact pass_append_pass
      { r with fail_test_name_list := removeFirst r.fail_test_name_list n, retry_test_list := eraseFirstByName r.retry_test_list n } n
  · simp only [if_neg h]
    exact pass_append_pass r n

/-! ## Ledger invariants preserved by the register operations -/

/-- Invariant A: every ledger name is currently a failed name. -/
def ledgerNamesFailed (r : TestPlanResults) : Prop :=
  ∀ nm ∈ r.retry_test_list.map (·.test_name), nm ∈ r.fail_test_name_list

/-- Invariant N: ledger names are pairwise distinct. -/
def ledgerNamesNodup (r : TestPlanResults) : Prop :=
  (r.retry_test_list.map (·.test_name)).Nodup

theorem register_skip_AN (r : TestPlanResults) (n : String)
    (hA : ledgerNamesFailed r) (hN : ledgerNamesNodup r) :
    ledgerNamesFailed (r.register_skip n) ∧ ledgerNamesNodup (r.register_skip n) :=
  ⟨hA, hN⟩

theorem register_fail_AN (r : TestPlanResults) (n : String)
    (hA : ledgerNamesFailed r) (hN : ledgerNamesNodup r) :
    ledgerNamesFailed (r.register_fail n) ∧ ledgerNamesNodup (r.register_fail n) := by
  unfold ledgerNamesFailed at hA ⊢
  unfold ledgerNamesNodup at hN ⊢
  rw [register_fail_retry, register_fail_fail]
  by_cases h : n ∈ r.fail_test_name_list
  · rw [if_pos h, if_pos h, decFirstByName_map_name]
    exact ⟨hA, hN⟩
  · rw [if_neg h, if_neg h]
    constructor
    · intro nm hnm
      rw [List.map_append] at hnm
      rcases List.mem_append.mp hnm with hl | hr
      · exact List.mem_append_left _ (hA nm hl)
      · simp only [List.map_cons, List.map_nil] at hr
        rcases List.mem_singleton.mp hr with rfl
        exact List.mem_append_right _ (List.mem_singleton.mpr rfl)
    · rw [List.map_append]
      rw [List.nodup_append]
      refine ⟨hN, List.nodup_singleton _, ?_⟩
      intro x hx hx2
      simp only [List.map_cons, List.map_nil, List.mem_singleton] at hx2
      subst hx2
      exact h (hA x hx)

theorem register_pass_AN (r : TestPlanResults) (n : String)
    (hA : ledgerNamesFailed r) (hN : ledgerNamesNodup r) :
    ledgerNamesFailed (r.register_pass n) ∧ ledgerNamesNodup (r.register_pass n) := by
  unfold ledgerNamesFailed at hA ⊢
  unfold ledgerNamesNodup at hN ⊢
  rw [register_pass_retry, register_pass_fail]
  by_cases h : n ∈ r.fail_test_name_list
  · rw [if_pos h, if_pos h]
    constructor
    · intro nm hnm
      obtain ⟨e, he, rfl⟩ := List.mem_map.mp hnm
      have hne : e.test_name ≠ n := eraseFirstByName_no_name _ n hN e he
      have hmem : e ∈ r.retry_test_list :=
        (eraseFirstByName_sublist r.retry_test_list n).subset he
      exact mem_removeFirst_of_ne _ _ _
        (hA _ (List.mem_map_of_mem _ hmem)) hne
    · exact List.Nodup.sublist
        ((eraseFirstByName_sublist r.retry_test_list n).map (·.test_name)) hN
  · rw [if_neg h, if_neg h]
    exact ⟨hA, hN⟩

theorem runStep_cases (env : SimEnv) (p : Nat) (r : TestPlanResults)
    (t : TestRunner) :
    (stepAvailable env p t = false ∧ runStep env p r t = r.register_skip t.name)
    ∨ (stepAvailable env p t = true ∧ env.result p t ≠ 0
        ∧ runStep env p r t = r.register_fail t.name)
    ∨ (stepAvailable env p t = true ∧ env.result p t = 0
        ∧ runStep env p r t = r.register_pass t.name) := by
  by_cases hav : stepAvailable env p t = true
  · by_cases hres : env.result p t = 0
    · refine Or.inr (Or.inr ⟨hav, hres, ?_⟩)
      simp [runStep, hav, hres]
    · refine Or.inr (Or.inl ⟨hav, hres, ?_⟩)
      simp [runStep, hav, hres]
  · refine Or.inl ⟨by simpa using hav, ?_⟩
    have : stepAvailable env p t = false := by simpa using hav
    simp [runStep, this]

theorem runStep_AN (env : SimEnv) (p : Nat) (r : TestPlanResults)
    (t : TestRunner) (hA : ledgerNamesFailed r) (hN : ledgerNamesNodup r) :
    ledgerNamesFailed (runStep env p r t) ∧ ledgerNamesNodup (runStep env p r t) := by
  rcases runStep_cases env p r t with ⟨_, heq⟩ | ⟨_, _, heq⟩ | ⟨_, _, heq⟩ <;>
    rw [heq]
  · exact register_skip_AN r t.name hA hN
  · exact register_fail_AN r t.name hA hN
  · exact register_pass_AN r t.name hA hN

theorem runPass_AN (env : SimEnv) (p : Nat) :
    ∀ (rem : List TestRunner) (r : TestPlanResults),
      ledgerNamesFailed r → ledgerNamesNodup r →
        ledgerNamesFailed (runPass env p rem r)
          ∧ ledgerNamesNodup (runPass env p rem r)
  | [], r => fun hA hN => ⟨hA, hN⟩
  | t :: ts, r => fun hA hN => by
    have h := runStep_AN env p r t hA hN
    exact runPass_AN env p ts (runStep env p r t) h.1 h.2

/-! ## `filter_retries` under distinct ledger names -/

theorem retry_filterMap_nil_or_single (t : TestRunner) :
    ∀ (l : List TestRetries), (l.map (·.test_name)).Nodup →
      (l.filterMap fun retry =>
          if t.name = retry.test_name ∧ retry.retries > 0 then some t
          else none) = []
      ∨ (l.filterMap fun retry =>
          if t.name = retry.test_name ∧ retry.retries > 0 then some t
          else none) = [t]
  | [] => fun _ => Or.inl rfl
  | e :: l2 => fun hnd => by
    by_cases hc : t.name = e.test_name ∧ e.retries > 0
    · right
      have hnil : (l2.filterMap fun retry =>
          if t.name = retry.test_name ∧ retry.retries > 0 then some t
          else none) = [] := by
        rw [List.filterMap_eq_nil_iff]
        intro e2 he2
        have hne : e2.test_name ≠ e.test_name := by
          have hnotin : e.test_name ∉ l2.map (·.test_name) := by
            simpa using (List.nodup_cons.mp hnd).1
          intro hcontra
          exact hnotin (hcontra ▸ List.mem_map_of_mem (·.test_name) he2)
        rw [if_neg]
        rintro ⟨h1, _⟩
        exact hne (h1.symm.trans hc.1)
      simp [List.filterMap_cons, if_pos hc, hnil]
    · have := retry_filterMap_nil_or_single t l2 (List.nodup_cons.mp hnd).2
      simpa [List.filterMap_cons, if_neg hc] using this

theorem filter_retries_sublist (r : TestPlanResults) (hN : ledgerNamesNodup r) :
    ∀ (ts : List TestRunner), List.Sublist (r.filter_retries ts) ts
  | [] => by
    rw [TestPlanResults.filter_retries]
  | t :: rest => by
    rw [TestPlanResults.filter_retries]
    rcases retry_filterMap_nil_or_single t r.retry_test_list hN with h | h
    · rw [h]
      simpa using List.Sublist.cons t (filter_retries_sublist r hN rest)
    · rw [h]
      simpa using List.Sublist.cons₂ t (filter_retries_sublist r hN rest)

theorem filter_retries_names_nodup (r : TestPlanResults)
    (hN : ledgerNamesNodup r) (ts : List TestRunner)
    (hnd : (ts.map (·.name)).Nodup) :
    ((r.filter_retries ts).map (·.name)).Nodup :=
  List.Nodup.sublist ((filter_retries_sublist r hN ts).map (·.name)) hnd

/-! ## Effect of one available step on the retry budget -/

theorem register_fail_retry_effect (r : TestPlanResults) (n : String)
    (hN : ledgerNamesNodup r) (hf : n ∈ r.fail_test_name_list) :
    sumPosRetries (r.register_fail n).retry_test_list
        ≤ sumPosRetries r.retry_test_list
    ∧ ((∃ e ∈ r.retry_test_list, e.test_name = n ∧ 0 < e.retries) →
        sumPosRetries (r.register_fail n).retry_test_list
          < sumPosRetries r.retry_test_list)
    ∧ (r.register_fail n).fail_test_name_list = r.fail_test_name_list := by
  rw [register_fail_retry, register_fail_fail, if_pos hf, if_pos hf]
  exact ⟨sumPosRetries_decFirst_le _ n,
    fun hpos => sumPosRetries_decFirst_lt _ n hN hpos, rfl⟩

theorem register_pass_retry_effect (r : TestPlanResults) (n : String)
    (hN : ledgerNamesNodup r) (hf : n ∈ r.fail_test_name_list) :
    sumPosRetries (r.register_pass n).retry_test_list
        ≤ sumPosRetries r.retry_test_list
    ∧ ((∃ e ∈ r.retry_test_list, e.test_name = n ∧ 0 < e.retries) →
        sumPosRetries (r.register_pass n).retry_test_list
          < sumPosRetries r.retry_test_list)
    ∧ (∀ m ∈ r.fail_test_name_list, m ≠ n →
        m ∈ (r.register_pass n).fail_test_name_list) := by
  rw [register_pass_retry, register_pass_fail, if_pos hf, if_pos hf]
  exact ⟨sumPosRetries_eraseFirst_le _ n,
    fun hpos => sumPosRetries_eraseFirst_lt _ n hN hpos,
    fun m hm hne => mem_removeFirst_of_ne _ m n hm hne⟩

theorem runStep_retry_effect (env : SimEnv) (p : Nat) (r : TestPlanResults)
    (t : TestRunner) (hav : stepAvailable env p t = true)
    (hA : ledgerNamesFailed r) (hN : ledgerNamesNodup r)
    (hf : t.name ∈ r.fail_test_name_list) :
    ledgerNamesFailed (runStep env p r t)
    ∧ ledgerNamesNodup (runStep env p r t)
    ∧ sumPosRetries (runStep env p r t).retry_test_list
        ≤ sumPosRetries r.retry_test_list
    ∧ ((∃ e ∈ r.retry_test_list, e.test_name = t.name ∧ 0 < e.retries) →
        sumPosRetries (runStep env p r t).retry_test_list
          < sumPosRetries r.retry_test_list)
    ∧ (∀ m ∈ r.fail_test_name_list, m ≠ t.name →
        m ∈ (runStep env p r t).fail_test_name_list) := by
  rcases runStep_cases env p r t with ⟨hcontra, _⟩ | ⟨_, _, heq⟩ | ⟨_, _, heq⟩
  · rw [hav] at hcontra
    exact absurd hcontra (by simp)
  · rw [heq]
    obtain ⟨h1, h2, h3⟩ := register_fail_retry_effect r t.name hN hf
    obtain ⟨hA2, hN2⟩ := register_fail_AN r t.name hA hN
    exact ⟨hA2, hN2, h1, h2, fun m hm _ => h3 ▸ hm⟩
  · rw [heq]
    obtain ⟨h1, h2, h3⟩ := register_pass_retry_effect r t.name hN hf
    obtain ⟨hA2, hN2⟩ := register_pass_AN r t.name hA hN
    exact ⟨hA2, hN2, h1, h2, h3⟩

theorem runPass_sumPos_le (env : SimEnv) (p : Nat) :
    ∀ (rem : List TestRunner) (r : TestPlanResults),
      (∀ t ∈ rem, stepAvailable env p t = true) →
      ledgerNamesFailed r → ledgerNamesNodup r →
      (rem.map (·.name)).Nodup →
      (∀ t ∈ rem, t.name ∈ r.fail_test_name_list) →
      ledgerNamesFailed (runPass env p rem r)
      ∧ ledgerNamesNodup (runPass env p rem r)
      ∧ sumPosRetries (runPass env p rem r).retry_test_list
          ≤ sumPosRetries r.retry_test_list
  | [], r => fun _ hA hN _ _ => ⟨hA, hN, le_refl _⟩
  | t :: ts, r => fun hav hA hN hnd hfail => by
    obtain ⟨hA2, hN2, hle, _, hframe⟩ :=
      runStep_retry_effect env p r t (hav t (List.mem_cons_self t ts)) hA hN
        (hfail t (List.mem_cons_self t ts))
    rw [List.map_cons, List.nodup_cons] at hnd
    have htail := runPass_sumPos_le env p ts (runStep env p r t)
      (fun u hu => hav u (List.mem_cons_of_mem t hu)) hA2 hN2 hnd.2
      (fun u hu => hframe u.name (hfail u (List.mem_cons_of_mem t hu))
        (fun hcontra => hnd.1 (hcontra ▸ List.mem_map_of_mem (·.name) hu)))
    exact ⟨htail.1, htail.2.1, le_trans htail.2.2 hle⟩

/-! ## Termination of the retry loop -/

theorem runLoop_zero (env : SimEnv) (p : Nat) (tests : List TestRunner)
    (r : TestPlanResults) : runLoop env 0 p tests r = none := rfl

theorem runLoop_succ (env : SimEnv) (fuel p : Nat) (tests : List TestRunner)
    (r : TestPlanResults) :
    runLoop env (fuel + 1) p tests r =
      if ((runPass env p tests r).filter_retries tests).isEmpty
      then some (p + 1, runPass env p tests r)
      else runLoop env fuel (p + 1)
        ((runPass env p tests r).filter_retries tests)
        (runPass env p tests r) := rfl

theorem runLoop_terminates (env : SimEnv)
    (Hav : ∀ (p : Nat) (t : TestRunner), stepAvailable env p t = true) :
    ∀ (fuel B p : Nat) (rem : List TestRunner) (r : TestPlanResults),
      B < fuel →
      ledgerNamesFailed r → ledgerNamesNodup r →
      (rem.map (·.name)).Nodup →
      (∀ t ∈ rem, ∃ e ∈ r.retry_test_list, e.test_name = t.name ∧ 0 < e.retries) →
      sumPosRetries r.retry_test_list ≤ B →
      (runLoop env fuel p rem r).isSome
  | 0, B, p, rem, r => fun hB _ _ _ _ _ => absurd hB (Nat.not_lt_zero B)
  | fuel + 1, B, p, rem, r => fun hB hA hN hnd hpos hbound => by
    rw [runLoop_succ]
    rcases rem with _ | ⟨t, ts⟩
    · have hempty : ((runPass env p [] r).filter_retries []).isEmpty = true := rfl
      rw [if_pos hempty]
      rfl
    · have hnd0 := hnd
      obtain ⟨e0, he0, he0n, he0pos⟩ := hpos t (List.mem_cons_self t ts)
      have hf : t.name ∈ r.fail_test_name_list :=
        he0n ▸ hA e0.test_name (List.mem_map_of_mem (·.test_name) he0)
      obtain ⟨hA2, hN2, hle2, hlt2, hframe⟩ :=
        runStep_retry_effect env p r t (Hav p t) hA hN hf
      have hlt : sumPosRetries (runStep env p r t).retry_test_list
          < sumPosRetries r.retry_test_list := hlt2 ⟨e0, he0, he0n, he0pos⟩
      rw [List.map_cons, List.nodup_cons] at hnd
      obtain ⟨hA3, hN3, hle3⟩ := runPass_sumPos_le env p ts (runStep env p r t)
        (fun u _ => Hav p u) hA2 hN2 hnd.2
        (fun u hu => hframe u.name
          (by
            obtain ⟨e1, he1, he1n, _⟩ := hpos u (List.mem_cons_of_mem t hu)
            exact he1n ▸ hA e1.test_name (List.mem_map_of_mem (·.test_name) he1))
          (fun hcontra => hnd.1 (hcontra ▸ List.mem_map_of_mem (·.name) hu)))
      by_cases hempty : ((runPass env p (t :: ts) r).filter_retries (t :: ts)).isEmpty
      · rw [if_pos hempty]
        rfl
      · rw [if_neg hempty]
        have hsum2 : sumPosRetries (runPass env p (t :: ts) r).retry_test_list
            < sumPosRetries r.retry_test_list := lt_of_le_of_lt hle3 hlt
        refine runLoop_terminates env Hav fuel (B - 1) (p + 1) _ _ ?_ hA3 hN3
          ?_ ?_ ?_
        · omega
        · exact filter_retries_names_nodup _ hN3 (t :: ts) hnd0
        · exact fun u hu => (filter_retries_mem _ (t :: ts) u hu).2
        · omega

/-- Environment of the C6 counterexample: the device of the
(always-failing) test vanishes after pass 0 and never returns. -/
def envC6 : SimEnv :=
  { devs := fun p _ =>
      (if p = 0 then dutDeviceT3 else Device.unresolved, Device.unresolved),
    result := fun _ _ => 1 }

theorem runLoop_envC6_none :
    ∀ (fuel k : Nat) (r : TestPlanResults),
      r.retry_test_list = [{ test_name := "T3", retries := 2 }] →
      runLoop envC6 fuel (k + 1) [testT3] r = none
  | 0, k, r => fun _ => rfl
  | fuel + 1, k, r => fun hr => by
    rw [runLoop_succ]
    have hav : stepAvailable envC6 (k + 1) testT3 = false := by
      simp [stepAvailable, envC6, get_test_ports, Device.unresolved,
        TestRunner.are_supported_devs_available]
    have hstep : runPass envC6 (k + 1) [testT3] r = r.register_skip "T3" := by
      show runStep envC6 (k + 1) r testT3 = r.register_skip "T3"
      simp [runStep, hav]
      rfl
    rw [hstep]
    have hretry2 : (r.register_skip "T3").retry_test_list
        = [{ test_name := "T3", retries := 2 }] := by
      rw [register_skip_retry, hr]
    have hfilter : (r.register_skip "T3").filter_retries [testT3] = [testT3] := by
      rw [TestPlanResults.filter_retries, TestPlanResults.filter_retries,
        hretry2]
      decide
    rw [hfilter]
    rw [if_neg (by decide)]
    exact runLoop_envC6_none fuel (k + 1) _ hretry2

/-- C6 (counterexample).  The retry loop does not terminate for every
plan and every maxRetries: with one test run with `maxRetries = 2` whose
device is present in pass 0 (where the test fails) and absent from every
later pass, every later pass only skips the test, its ledger entry stays
at 2, the filtered retry list never empties, and the loop runs forever —
no fuel makes `runLoop` return. -/
theorem C6_counterexample_skip_forever :
    (¬ ∃ (fuel : Nat) (out : Nat × TestPlanResults),
        runLoop envC6 fuel 0 [testT3] (TestPlanResults.init 2) = some out)
    ∧ (runPass envC6 0 [testT3] (TestPlanResults.init 2)).filter_retries
        [testT3] = [testT3] := by
  constructor
  · rintro ⟨fuel, out, hout⟩
    have hnone : runLoop envC6 fuel 0 [testT3] (TestPlanResults.init 2)
        = none := by
      cases fuel with
      | zero => rfl
      | succ f =>
        rw [runLoop_succ]
        rw [if_neg (by decide)]
        exact runLoop_envC6_none f 0 _ (by decide)
    rw [hnone] at hout
    exact Option.noConfusion hout
  · decide

/-- C6 (amended).  Provided the plan's test names are distinct and the
resolved devices of every test are available in every pass (no test is
ever skipped), the retry loop terminates: some finite fuel makes
`runLoop` return a result. -/
theorem C6_loop_terminates_when_available (env : SimEnv)
    (tests0 : List TestRunner) (m : Int)
    (Hnodup : (tests0.map (·.name)).Nodup)
    (Hav : ∀ (p : Nat) (t : TestRunner), stepAvailable env p t = true) :
    ∃ (fuel : Nat) (out : Nat × TestPlanResults),
      runLoop env fuel 0 tests0 (TestPlanResults.init m) = some out := by
  have hA0 : ledgerNamesFailed (TestPlanResults.init m) := by
    intro nm hnm
    simp [TestPlanResults.init] at hnm
  have hN0 : ledgerNamesNodup (TestPlanResults.init m) := by
    simp [ledgerNamesNodup, TestPlanResults.init]
  obtain ⟨hA1, hN1⟩ := runPass_AN env 0 tests0 (TestPlanResults.init m) hA0 hN0
  by_cases hempty :
      ((runPass env 0 tests0 (TestPlanResults.init m)).filter_retries
        tests0).isEmpty
  · exact ⟨1, (1, runPass env 0 tests0 (TestPlanResults.init m)),
      by rw [runLoop_succ, if_pos hempty]⟩
  · have hterm := runLoop_terminates env Hav
      (sumPosRetries (runPass env 0 tests0
        (TestPlanResults.init m)).retry_test_list + 1)
      (sumPosRetries (runPass env 0 tests0
        (TestPlanResults.init m)).retry_test_list)
      1
      ((runPass env 0 tests0 (TestPlanResults.init m)).filter_retries tests0)
      (runPass env 0 tests0 (TestPlanResults.init m))
      (Nat.lt_succ_self _) hA1 hN1
      (filter_retries_names_nodup _ hN1 tests0 Hnodup)
      (fun u hu => (filter_retries_mem _ tests0 u hu).2)
      (le_refl _)
    obtain ⟨out, hout⟩ := Option.isSome_iff_exists.mp hterm
    exact ⟨sumPosRetries (runPass env 0 tests0
        (TestPlanResults.init m)).retry_test_list + 2, out,
      by rw [runLoop_succ, if_neg hempty]; exact hout⟩

/-- Stub device available alongside the DUT in the C6 witness. -/
def stubDeviceT3 : Device :=
  { name := "B", uid := "UID4", features := [], access := some "/dev/ttyACM1",
    switch := none }

/-- Environment with both devices always available and failing scripts. -/
def envBothFail : SimEnv :=
  { devs := fun _ _ => (dutDeviceT3, stubDeviceT3),
    result := fun _ _ => 1 }

/-- Witness for the amended C6: a concrete always-available environment
satisfies the hypotheses, so its loop terminates. -/
theorem C6_loop_terminates_when_available_witness :
    ∃ (fuel : Nat) (out : Nat × TestPlanResults),
      runLoop envBothFail fuel 0 [testT3] (TestPlanResults.init 2)
        = some out :=
  C6_loop_terminates_when_available envBothFail [testT3] 2 (by decide)
    (fun p t => by
      simp [stepAvailable, envBothFail, get_test_ports, dutDeviceT3,
        stubDeviceT3, TestRunner.are_supported_devs_available])

/-! ## The tracker invariant of the execution loop (claim C5) -/

/-- Invariant of the tracker along a run against a fixed plan `tests0`
whose per-test availability does not change between passes: pass/fail
bookkeeping is duplicate-free, ledger entries belong to failed names and
never to passed names, the three result sets are pairwise disjoint, and
membership of a name in each set is consistent with the availability of
the test carrying that name. -/
structure TrackerInv (env : SimEnv) (tests0 : List TestRunner)
    (r : TestPlanResults) : Prop where
  fail_nodup : r.fail_test_name_list.Nodup
  pass_nodup : r.pass_test_name_list.Nodup
  ledger_fail : ledgerNamesFailed r
  ledger_nodup : ledgerNamesNodup r
  pass_no_entry : ∀ nm ∈ r.retry_test_list.map (·.test_name),
    nm ∉ r.pass_test_name_list
  disj_pf : ∀ n ∈ r.pass_test_name_list, n ∉ r.fail_test_name_list
  disj_ps : ∀ n ∈ r.pass_test_name_list, n ∉ r.skip_test_name_list
  disj_fs : ∀ n ∈ r.fail_test_name_list, n ∉ r.skip_test_name_list
  fail_avail : ∀ n ∈ r.fail_test_name_list, ∀ t ∈ tests0, t.name = n →
    stepAvailable env 0 t = true
  pass_avail : ∀ n ∈ r.pass_test_name_list, ∀ t ∈ tests0, t.name = n →
    stepAvailable env 0 t = true
  skip_unavail : ∀ n ∈ r.skip_test_name_list, ∀ t ∈ tests0, t.name = n →
    stepAvailable env 0 t = false

theorem eq_of_name_eq_of_nodup :
    ∀ (tests0 : List TestRunner), (tests0.map (·.name)).Nodup →
      ∀ t ∈ tests0, ∀ u ∈ tests0, t.name = u.name → t = u
  | [], _ => by simp
  | a :: l, hnd => by
    rw [List.map_cons, List.nodup_cons] at hnd
    intro t ht u hu hname
    rcases List.mem_cons.mp ht with rfl | ht2 <;>
      rcases List.mem_cons.mp hu with rfl | hu2
    · rfl
    · exact absurd (hname ▸ List.mem_map_of_mem (·.name) hu2) hnd.1
    · exact absurd (hname ▸ List.mem_map_of_mem (·.name) ht2) hnd.1
    · exact eq_of_name_eq_of_nodup l hnd.2 t ht2 u hu2 hname

theorem register_skip_inv (env : SimEnv) (tests0 : List TestRunner)
    (r : TestPlanResults) (n : String) (hInv : TrackerInv env tests0 r)
    (hnp : n ∉ r.pass_test_name_list) (hnf : n ∉ r.fail_test_name_list)
    (hun : ∀ t ∈ tests0, t.name = n → stepAvailable env 0 t = false) :
    TrackerInv env tests0 (r.register_skip n) where
  fail_nodup := hInv.fail_nodup
  pass_nodup := hInv.pass_nodup
  ledger_fail := hInv.ledger_fail
  ledger_nodup := hInv.ledger_nodup
  pass_no_entry := hInv.pass_no_entry
  disj_pf := hInv.disj_pf
  disj_ps := by
    intro m hm hcontra
    rcases List.mem_append.mp hcontra with h1 | h2
    · exact hInv.disj_ps m hm h1
    · rw [List.mem_singleton] at h2
      exact hnp (h2 ▸ hm)
  disj_fs := by
    intro m hm hcontra
    rcases List.mem_append.mp hcontra with h1 | h2
    · exact hInv.disj_fs m hm h1
    · rw [List.mem_singleton] at h2
      exact hnf (h2 ▸ hm)
  fail_avail := hInv.fail_avail
  pass_avail := hInv.pass_avail
  skip_unavail := by
    intro m hm t ht hname
    rcases List.mem_append.mp hm with h1 | h2
    · exact hInv.skip_unavail m h1 t ht hname
    · rw [List.mem_singleton] at h2
      exact hun t ht (h2 ▸ hname)

theorem register_fail_inv (env : SimEnv) (tests0 : List TestRunner)
    (r : TestPlanResults) (n : String) (hInv : TrackerInv env tests0 r)
    (hnp : n ∉ r.pass_test_name_list) (hns : n ∉ r.skip_test_name_list)
    (hav : ∀ t ∈ tests0, t.name = n → stepAvailable env 0 t = true) :
    TrackerInv env tests0 (r.register_fail n) := by
  obtain ⟨hA2, hN2⟩ := register_fail_AN r n hInv.ledger_fail hInv.ledger_nodup
  refine ⟨?_, ?_, hA2, hN2, ?_, ?_, ?_, ?_, ?_, ?_, ?_⟩
  · rw [register_fail_fail]
    by_cases h : n ∈ r.fail_test_name_list
    · rw [if_pos h]; exact hInv.fail_nodup
    · rw [if_neg h]
      rw [List.nodup_append]
      exact ⟨hInv.fail_nodup, List.nodup_singleton n,
        fun x hx hx2 => h ((List.mem_singleton.mp hx2) ▸ hx)⟩
  · rw [register_fail_pass]
    exact hInv.pass_nodup
  · rw [register_fail_retry, register_fail_pass]
    by_cases h : n ∈ r.fail_test_name_list
    · rw [if_pos h, decFirstByName_map_name]
      exact hInv.pass_no_entry
    · rw [if_neg h, List.map_append]
      intro nm hnm
      rcases List.mem_append.mp hnm with h1 | h2
      · exact hInv.pass_no_entry nm h1
      · simp only [List.map_cons, List.map_nil, List.mem_singleton] at h2
        exact h2 ▸ hnp
  · rw [register_fail_pass, register_fail_fail]
    intro m hm
    by_cases h : n ∈ r.fail_test_name_list
    · rw [if_pos h]; exact hInv.disj_pf m hm
    · rw [if_neg h]
      intro hcontra
      rcases List.mem_append.mp hcontra with h1 | h2
      · exact hInv.disj_pf m hm h1
      · exact hnp ((List.mem_singleton.mp h2) ▸ hm)
  · rw [register_fail_pass, register_fail_skip]
    exact hInv.disj_ps
  · rw [register_fail_fail, register_fail_skip]
    intro m hm
    by_cases h : n ∈ r.fail_test_name_list
    · rw [if_pos h] at hm; exact hInv.disj_fs m hm
    · rw [if_neg h] at hm
      rcases List.mem_append.mp hm with h1 | h2
      · exact hInv.disj_fs m h1
      · exact (List.mem_singleton.mp h2) ▸ hns
  · rw [register_fail_fail]
    intro m hm t ht hname
    by_cases h : n ∈ r.fail_test_name_list
    · rw [if_pos h] at hm; exact hInv.fail_avail m hm t ht hname
    · rw [if_neg h] at hm
      rcases List.mem_append.mp hm with h1 | h2
      · exact hInv.fail_avail m h1 t ht hname
      · exact hav t ht ((List.mem_singleton.mp h2) ▸ hname)
  · rw [register_fail_pass]
    exact hInv.pass_avail
  · rw [register_fail_skip]
    exact hInv.skip_unavail

theorem register_pass_inv (env : SimEnv) (tests0 : List TestRunner)
    (r : TestPlanResults) (n : String) (hInv : TrackerInv env tests0 r)
    (hnp : n ∉ r.pass_test_name_list) (hns : n ∉ r.skip_test_name_list)
    (hav : ∀ t ∈ tests0, t.name = n → stepAvailable env 0 t = true) :
    TrackerInv env tests0 (r.register_pass n) := by
  obtain ⟨hA2, hN2⟩ := register_pass_AN r n hInv.ledger_fail hInv.ledger_nodup
  have hfail_sub : ∀ m ∈ (r.register_pass n).fail_test_name_list,
      m ∈ r.fail_test_name_list := by
    intro m hm
    rw [register_pass_fail] at hm
    by_cases h : n ∈ r.fail_test_name_list
    · rw [if_pos h] at hm
      exact (removeFirst_sublist r.fail_test_name_list n).subset hm
    · rwa [if_neg h] at hm
  have hpass_eq : (r.register_pass n).pass_test_name_list
      = r.pass_test_name_list ++ [n] := by
    rw [register_pass_pass, if_neg hnp]
  refine ⟨?_, ?_, hA2, hN2, ?_, ?_, ?_, ?_, ?_, ?_, ?_⟩
  · rw [register_pass_fail]
    by_cases h : n ∈ r.fail_test_name_list
    · rw [if_pos h]
      exact List.Nodup.sublist (removeFirst_sublist _ n) hInv.fail_nodup
    · rw [if_neg h]; exact hInv.fail_nodup
  · rw [hpass_eq, List.nodup_append]
    exact ⟨hInv.pass_nodup, List.nodup_singleton n,
      fun x hx hx2 => hnp ((List.mem_singleton.mp hx2) ▸ hx)⟩
  · rw [register_pass_retry, hpass_eq]
    intro nm hnm hcontra
    by_cases h : n ∈ r.fail_test_name_list
    · rw [if_pos h] at hnm
      obtain ⟨e, he, rfl⟩ := List.mem_map.mp hnm
      have hne : e.test_name ≠ n :=
        eraseFirstByName_no_name _ n hInv.ledger_nodup e he
      have hmem : e ∈ r.retry_test_list :=
        (eraseFirstByName_sublist r.retry_test_list n).subset he
      rcases List.mem_append.mp hcontra with h1 | h2
      · exact hInv.pass_no_entry e.test_name
          (List.mem_map_of_mem (·.test_name) hmem) h1
      · exact hne (List.mem_singleton.mp h2)
    · rw [if_neg h] at hnm
      rcases List.mem_append.mp hcontra with h1 | h2
      · exact hInv.pass_no_entry nm hnm h1
      · exact h (((List.mem_singleton.mp h2) ▸ hInv.ledger_fail nm hnm))
  · rw [hpass_eq]
    intro m hm hcontra
    rcases List.mem_append.mp hm with h1 | h2
    · exact hInv.disj_pf m h1 (hfail_sub m hcontra)
    · rw [List.mem_singleton] at h2
      subst h2
      rw [register_pass_fail] at hcontra
      by_cases h : m ∈ r.fail_test_name_list
      · rw [if_pos h] at hcontra
        exact not_mem_removeFirst _ m hInv.fail_nodup hcontra
      · rw [if_neg h] at hcontra
        exact h hcontra
  · rw [hpass_eq, register_pass_skip]
    intro m hm
    rcases List.mem_append.mp hm with h1 | h2
    · exact hInv.disj_ps m h1
    · exact (List.mem_singleton.mp h2) ▸ hns
  · rw [register_pass_skip]
    intro m hm
    exact hInv.disj_fs m (hfail_sub m hm)
  · intro m hm t ht hname
    exact hInv.fail_avail m (hfail_sub m hm) t ht hname
  · rw [hpass_eq]
    intro m hm t ht hname
    rcases List.mem_append.mp hm with h1 | h2
    · exact hInv.pass_avail m h1 t ht hname
    · exact hav t ht ((List.mem_singleton.mp h2) ▸ hname)
  · rw [register_pass_skip]
    exact hInv.skip_unavail

theorem runStep_inv (env : SimEnv) (tests0 : List TestRunner)
    (Hstable : ∀ (p : Nat) (t : TestRunner),
      stepAvailable env p t = stepAvailable env 0 t)
    (Hnodup0 : (tests0.map (·.name)).Nodup)
    (p : Nat) (r : TestPlanResults) (t : TestRunner)
    (hInv : TrackerInv env tests0 r) (ht0 : t ∈ tests0)
    (htp : t.name ∉ r.pass_test_name_list) :
    TrackerInv env tests0 (runStep env p r t)
    ∧ ∀ n ∈ (runStep env p r t).pass_test_name_list,
        n ∈ r.pass_test_name_list ∨ n = t.name := by
  rcases runStep_cases env p r t with ⟨hav, heq⟩ | ⟨hav, _, heq⟩ | ⟨hav, _, heq⟩
  · have hav0 : stepAvailable env 0 t = false := (Hstable p t).symm.trans hav
    have hnf : t.name ∉ r.fail_test_name_list := fun hmem => by
      have := hInv.fail_avail t.name hmem t ht0 rfl
      rw [hav0] at this
      exact Bool.noConfusion this
    rw [heq]
    refine ⟨register_skip_inv env tests0 r t.name hInv htp hnf ?_, ?_⟩
    · intro u hu hname
      exact (eq_of_name_eq_of_nodup tests0 Hnodup0 u hu t ht0 hname) ▸ hav0
    · rw [register_skip_pass]
      exact fun n hn => Or.inl hn
  · have hav0 : stepAvailable env 0 t = true := (Hstable p t).symm.trans hav
    have hns : t.name ∉ r.skip_test_name_list := fun hmem => by
      have := hInv.skip_unavail t.name hmem t ht0 rfl
      rw [hav0] at this
      exact Bool.noConfusion this
    rw [heq]
    refine ⟨register_fail_inv env tests0 r t.name hInv htp hns ?_, ?_⟩
    · intro u hu hname
      exact (eq_of_name_eq_of_nodup tests0 Hnodup0 u hu t ht0 hname) ▸ hav0
    · rw [register_fail_pass]
      exact fun n hn => Or.inl hn
  · have hav0 : stepAvailable env 0 t = true := (Hstable p t).symm.trans hav
    have hns : t.name ∉ r.skip_test_name_list := fun hmem => by
      have := hInv.skip_unavail t.name hmem t ht0 rfl
      rw [hav0] at this
      exact Bool.noConfusion this
    rw [heq]
    refine ⟨register_pass_inv env tests0 r t.name hInv htp hns ?_, ?_⟩
    · intro u hu hname
      exact (eq_of_name_eq_of_nodup tests0 Hnodup0 u hu t ht0 hname) ▸ hav0
    · rw [register_pass_pass, if_neg htp]
      intro n hn
      rcases List.mem_append.mp hn with h1 | h2
      · exact Or.inl h1
      · exact Or.inr (List.mem_singleton.mp h2)

theorem runPass_inv (env : SimEnv) (tests0 : List TestRunner)
    (Hstable : ∀ (p : Nat) (t : TestRunner),
      stepAvailable env p t = stepAvailable env 0 t)
    (Hnodup0 : (tests0.map (·.name)).Nodup) (p : Nat) :
    ∀ (rem : List TestRunner) (r : TestPlanResults),
      TrackerInv env tests0 r →
      (∀ t ∈ rem, t ∈ tests0) →
      ((rem.map (·.name)).Nodup) →
      (∀ t ∈ rem, t.name ∉ r.pass_test_name_list) →
      TrackerInv env tests0 (runPass env p rem r)
      ∧ (∀ s ∈ runPassStates env p rem r, TrackerInv env tests0 s)
  | [], r => fun hInv _ _ _ =>
    ⟨hInv, fun s hs => absurd hs (by rw [runPassStates]; simp)⟩
  | t :: ts, r => fun hInv hsub hnd hnp => by
    obtain ⟨hInv2, hgrow⟩ := runStep_inv env tests0 Hstable Hnodup0 p r t hInv
      (hsub t (List.mem_cons_self t ts)) (hnp t (List.mem_cons_self t ts))
    rw [List.map_cons, List.nodup_cons] at hnd
    have htail := runPass_inv env tests0 Hstable Hnodup0 p ts
      (runStep env p r t) hInv2
      (fun u hu => hsub u (List.mem_cons_of_mem t hu)) hnd.2
      (fun u hu hmem => by
        rcases hgrow u.name hmem with h1 | h2
        · exact hnp u (List.mem_cons_of_mem t hu) h1
        · exact hnd.1 (h2 ▸ List.mem_map_of_mem (·.name) hu))
    refine ⟨htail.1, ?_⟩
    intro s hs
    simp only [runPassStates] at hs
    rcases List.mem_cons.mp hs with rfl | hs2
    · exact hInv2
    · exact htail.2 s hs2

theorem runLoopStates_zero (env : SimEnv) (p : Nat)
    (tests : List TestRunner) (r : TestPlanResults) :
    runLoopStates env 0 p tests r = [] := rfl

theorem runLoopStates_succ (env : SimEnv) (fuel p : Nat)
    (tests : List TestRunner) (r : TestPlanResults) :
    runLoopStates env (fuel + 1) p tests r =
      runPassStates env p tests r ++
        (if ((runPass env p tests r).filter_retries tests).isEmpty then []
          else runLoopStates env fuel (p + 1)
            ((runPass env p tests r).filter_retries tests)
            (runPass env p tests r)) := rfl

theorem runLoop_states_inv (env : SimEnv) (tests0 : List TestRunner)
    (Hstable : ∀ (p : Nat) (t : TestRunner),
      stepAvailable env p t = stepAvailable env 0 t)
    (Hnodup0 : (tests0.map (·.name)).Nodup) :
    ∀ (fuel p : Nat) (rem : List TestRunner) (r : TestPlanResults),
      TrackerInv env tests0 r →
      (∀ t ∈ rem, t ∈ tests0) →
      ((rem.map (·.name)).Nodup) →
      (∀ t ∈ rem, t.name ∉ r.pass_test_name_list) →
      ∀ s ∈ runLoopStates env fuel p rem r, TrackerInv env tests0 s
  | 0, p, rem, r => fun _ _ _ _ s hs =>
    absurd hs (by rw [runLoopStates_zero]; simp)
  | fuel + 1, p, rem, r => fun hInv hsub hnd hnp s hs => by
    rw [runLoopStates_succ] at hs
    obtain ⟨hInvPass, hStates⟩ :=
      runPass_inv env tests0 Hstable Hnodup0 p rem r hInv hsub hnd hnp
    rcases List.mem_append.mp hs with h1 | h2
    · exact hStates s h1
    · by_cases hempty : ((runPass env p rem r).filter_retries rem).isEmpty
      · rw [if_pos hempty] at h2
        exact absurd h2 (List.not_mem_nil s)
      · rw [if_neg hempty] at h2
        refine runLoop_states_inv env tests0 Hstable Hnodup0 fuel (p + 1)
          _ _ hInvPass ?_ ?_ ?_ s h2
        · exact fun u hu => hsub u (filter_retries_mem _ rem u hu).1
        · exact filter_retries_names_nodup _ hInvPass.ledger_nodup rem hnd
        · intro u hu hmem
          obtain ⟨_, e, he, hen, _⟩ := filter_retries_mem _ rem u hu
          exact hInvPass.pass_no_entry e.test_name
            (List.mem_map_of_mem (·.test_name) he) (by rw [hen]; exact hmem)

/-- C5 (counterexample).  The three result sets are not pairwise
disjoint at every reachable state: a test that fails in pass 0 and is
skipped in pass 1 (its device now absent) produces a reachable tracker
state whose fail list and skip list both contain the name. -/
theorem C5_counterexample_fail_and_skip_overlap :
    c8r2 ∈ runLoopStates envC8 10 0 [testT3] (TestPlanResults.init 2)
    ∧ "T3" ∈ c8r2.fail_test_name_list
    ∧ "T3" ∈ c8r2.skip_test_name_list := by
  refine ⟨by decide, by decide, by decide⟩

/-- C5 (amended).  Provided the plan's test names are distinct and each
test's device availability does not change between passes, the three
result name sets passed, failed and skipped are pairwise disjoint at
every state the execution loop passes through (after every register
call): a name may move from failed to passed, but never sits in two of
the three sets at once. -/
theorem C5_sets_disjoint_when_names_unique_and_stable
    (env : SimEnv) (tests0 : List TestRunner) (m : Int) (fuel : Nat)
    (Hnodup : (tests0.map (·.name)).Nodup)
    (Hstable : ∀ (p : Nat) (t : TestRunner),
      stepAvailable env p t = stepAvailable env 0 t) :
    ∀ s ∈ runLoopStates env fuel 0 tests0 (TestPlanResults.init m),
      (∀ n ∈ s.pass_test_name_list, n ∉ s.fail_test_name_list)
      ∧ (∀ n ∈ s.pass_test_name_list, n ∉ s.skip_test_name_list)
      ∧ (∀ n ∈ s.fail_test_name_list, n ∉ s.skip_test_name_list) := by
  intro s hs
  have hInv0 : TrackerInv env tests0 (TestPlanResults.init m) := by
    refine ⟨?_, ?_, ?_, ?_, ?_, ?_, ?_, ?_, ?_, ?_, ?_⟩ <;>
      simp [TestPlanResults.init, ledgerNamesFailed, ledgerNamesNodup]
  have hfin := runLoop_states_inv env tests0 Hstable Hnodup fuel 0 tests0
    (TestPlanResults.init m) hInv0 (fun t ht => ht) Hnodup
    (fun t _ hmem => by simp [TestPlanResults.init] at hmem) s hs
  exact ⟨hfin.disj_pf, hfin.disj_ps, hfin.disj_fs⟩

/-- Witness for the amended C5: in a concrete stable always-available
run, the state after pass 0 is reachable, has `"T3"` in the fail list,
and the theorem puts `"T3"` outside the skip list there. -/
theorem C5_sets_disjoint_witness :
    "T3" ∉ (runPass envBothFail 0 [testT3]
      (TestPlanResults.init 2)).skip_test_name_list := by
  have h := C5_sets_disjoint_when_names_unique_and_stable envBothFail
    [testT3] 2 10 (by decide) (fun p t => rfl)
  have hmem : runPass envBothFail 0 [testT3] (TestPlanResults.init 2)
      ∈ runLoopStates envBothFail 10 0 [testT3] (TestPlanResults.init 2) := by
    decide
  exact (h _ hmem).2.2 "T3" (by decide)
